import Mathlib

/-!
# Pooled LDAP client factory

A shallow embedding of `internal/authentication/ldap_client_factory.go`:
the pool `LDAPClientPooledFactory` (constructor, `Initialize`, `new`,
`relinquish`, `acquire`, `Shutdown`) and the wrapper `LDAPClientPooled`.

Conventions of the embedding.

* Go's `int` and `time.Duration` are `Int` (durations in nanoseconds); no
  operation of the file can overflow them for inputs in range.
* The buffered channel `clients` is a record (capacity, queued values, closed
  flag); a nil channel is `none`.
* The pool record carries, next to the fields of the Go struct, the part of
  the environment the code acts on: the inner factory as the sequence of the
  outcomes of its `GetClient()` calls, how many such calls were made, the
  largest capacity with which the runtime makes a channel, a logical clock,
  and the log of the real `Close()` calls made on underlying connections.
* The logical clock is advanced by waiting on the buffer, by sleeping, and by
  each call to the inner factory, which takes `dial` nanoseconds; with
  `dial = 0` only waiting and sleeping advance it.
* `sync.Mutex` sections are balanced on every path and are not represented;
  `sync.WaitGroup` is its counter.
* A call ends by returning, by a run-time panic, by waiting forever, or (for
  the retry loop, which is unrolled a bounded number of times) by exhausting
  its unrolling budget.
-/

namespace LDAPPool

/-- The duration `time.Second`, in nanoseconds. -/
def Second : Int := 1000000000

/-- Error values the code can return. -/
inductive Err where
  /-- The text "error acquiring client: the pool is closed". -/
  | poolClosed
  /-- The text "errors occurred initializing the client pool: no connections could be established". -/
  | noConnections
  /-- The text "error occurred establishing new client for the pool: pool is already the maximum size". -/
  | maxSize
  /-- The value of `ctx.Err()` once the deadline has passed. -/
  | deadlineExceeded
  /-- An error value produced by the inner factory or by an underlying connection. -/
  | external (code : Nat)
deriving DecidableEq

/-- Run-time panics of the Go runtime that the code can raise. -/
inductive Panic where
  | nilDereference
  | negativeWaitGroup
  | closeOfNilChannel
  | closeOfClosedChannel
  | sendOnClosedChannel
  | makeChanSize
deriving DecidableEq

/-- How a call ends. -/
inductive Res (α : Type) where
  /-- The call returned. -/
  | ret (a : α)
  /-- The call raised a run-time panic. -/
  | panic (p : Panic)
  /-- The call waits for an event that no step of its own can produce. -/
  | blocked
  /-- The retry loop was still running when its unrolling budget ran out. -/
  | spin
deriving DecidableEq

/-- An underlying connection (`ldap.Client`), as far as the pool observes it. -/
structure LDAPClient where
  /-- Identity of the connection. -/
  id : Nat
  /-- The value of `IsClosing()`. -/
  isClosing : Bool
  /-- The value of `Close()`: `none` is nil. -/
  closeErr : Option Nat
deriving DecidableEq

/-- The wrapper `LDAPClientPooled`: an allocation holding the embedded `ldap.Client`,
which may be nil. The back-reference `pool` is the single pool of the model. -/
structure LDAPClientPooled where
  /-- Identity of the allocation. -/
  ptr : Nat
  /-- The embedded interface value. -/
  Client : Option LDAPClient
deriving DecidableEq

/-- A made channel of `*LDAPClientPooled`. -/
structure Chan where
  cap : Nat
  buf : List LDAPClientPooled
  closed : Bool
deriving DecidableEq

/-- The environment a pool is built in. -/
structure Env where
  /-- The inner factory: the outcome of its n-th `GetClient()` call. -/
  factory : Nat → Except Nat (Option LDAPClient)
  /-- The largest capacity with which `make(chan *LDAPClientPooled, n)` succeeds; for a larger
  `n`, as for a negative one, the runtime panics with "makechan: size out of range". -/
  chanLimit : Nat
  /-- The time one `GetClient()` call of the inner factory takes, in nanoseconds. -/
  dial : Nat

/-- The struct `LDAPClientPooledFactory` together with the environment it acts on. -/
structure LDAPClientPooledFactory where
  /-- The inner factory: the outcome of its n-th `GetClient()` call. -/
  factory : Nat → Except Nat (Option LDAPClient)
  /-- The largest capacity with which the runtime makes the channel. -/
  chanLimit : Nat
  /-- The time one call of the inner factory takes, in nanoseconds. -/
  dial : Nat
  count : Int
  timeout : Int
  sleep : Int
  /-- The channel `clients`; `none` is the nil channel. -/
  clients : Option Chan
  closing : Bool
  /-- The counter of the wait group `wg`. -/
  wg : Nat
  /-- Number of `GetClient()` calls made on the inner factory so far. -/
  calls : Nat
  /-- The logical clock, in nanoseconds. -/
  now : Int
  /-- Identities of the underlying connections on which `Close()` was really called, in order. -/
  closeLog : List Nat
  /-- Identity given to the next wrapper allocation. -/
  nextPtr : Nat

/-- The body of `NewLDAPConnectionFactoryPooled`. `timeout.Seconds() <= 0` holds exactly when
the duration is `<= 0`; Go's `/` on integers truncates toward zero. -/
def NewLDAPConnectionFactoryPooled (env : Env)
    (count retries : Int) (timeout : Int) : LDAPClientPooledFactory :=
  let count := if count ≤ 0 then 5 else count
  let retries := if retries ≤ 0 then 2 else retries
  let timeout := if timeout ≤ 0 then Second * 10 else timeout
  let sleep := Int.tdiv timeout retries
  { factory := env.factory, chanLimit := env.chanLimit, dial := env.dial,
    count := count, timeout := timeout, sleep := sleep,
    clients := none, closing := false, wg := 0,
    calls := 0, now := 0, closeLog := [], nextPtr := 0 }

namespace LDAPClientPooledFactory

/-- The value of `cap(f.clients)`. -/
def capClients (f : LDAPClientPooledFactory) : Nat :=
  match f.clients with
  | none => 0
  | some ch => ch.cap

/-- The value of `len(f.clients)`. -/
def lenClients (f : LDAPClientPooledFactory) : Nat :=
  match f.clients with
  | none => 0
  | some ch => ch.buf.length

/-- The method `new`. The call `f.factory.GetClient()` takes `f.dial` nanoseconds. -/
def new (f : LDAPClientPooledFactory) : Except Err LDAPClientPooled × LDAPClientPooledFactory :=
  if capClients f ≤ lenClients f then
    (.error .maxSize, f)
  else
    match f.factory f.calls with
    | .error e => (.error (.external e), { f with calls := f.calls + 1, now := f.now + f.dial })
    | .ok client =>
      (.ok { ptr := f.nextPtr, Client := client },
       { f with calls := f.calls + 1, wg := f.wg + 1, nextPtr := f.nextPtr + 1,
                now := f.now + f.dial })

/-- The statement `f.clients <- client` with no receiver waiting. -/
def send (f : LDAPClientPooledFactory) (client : LDAPClientPooled) :
    Res Unit × LDAPClientPooledFactory :=
  match f.clients with
  | none => (.blocked, f)
  | some ch =>
    if ch.closed then (.panic .sendOnClosedChannel, f)
    else if ch.buf.length < ch.cap then
      (.ret (), { f with clients := some { ch with buf := ch.buf ++ [client] } })
    else (.blocked, f)

/-- The loop of `Initialize`: `k` iterations remain, `errs` is `len(errs)`. -/
def initLoop : Nat → Nat → LDAPClientPooledFactory → Res Nat × LDAPClientPooledFactory
  | 0, errs, f => (.ret errs, f)
  | k + 1, errs, f =>
    match new f with
    | (.error _, f1) => initLoop k (errs + 1) f1
    | (.ok client, f1) =>
      match send f1 client with
      | (.ret _, f2) => initLoop k errs f2
      | (.panic p, f2) => (.panic p, f2)
      | (.blocked, f2) => (.blocked, f2)
      | (.spin, f2) => (.spin, f2)

/-- The method `Initialize`. The statement `make(chan *LDAPClientPooled, f.count)` panics for a
negative count and for a count above what the runtime can make. -/
def Initialize (f : LDAPClientPooledFactory) : Res (Option Err) × LDAPClientPooledFactory :=
  if f.count < 0 ∨ (f.chanLimit : Int) < f.count then (.panic .makeChanSize, f)
  else
    match initLoop f.count.toNat 0
        { f with clients := some { cap := f.count.toNat, buf := [], closed := false } } with
    | (.ret errs, f1) =>
      if (errs : Int) = f.count then (.ret (some .noConnections), f1) else (.ret none, f1)
    | (.panic p, f1) => (.panic p, f1)
    | (.blocked, f1) => (.blocked, f1)
    | (.spin, f1) => (.spin, f1)

/-- The call `client.Client.Close()`: a real close of the underlying connection. -/
def realClose (f : LDAPClientPooledFactory) (client : LDAPClientPooled) :
    Res (Option Err) × LDAPClientPooledFactory :=
  match client.Client with
  | none => (.panic .nilDereference, f)
  | some cl => (.ret (cl.closeErr.map Err.external), { f with closeLog := f.closeLog ++ [cl.id] })

/-- The method `relinquish`. -/
def relinquish (f : LDAPClientPooledFactory) (client : LDAPClientPooled) :
    Res (Option Err) × LDAPClientPooledFactory :=
  if f.closing then realClose f client
  else if capClients f = lenClients f then realClose f client
  else
    match send f client with
    | (.ret _, f1) => (.ret none, f1)
    | (.panic p, f1) => (.panic p, f1)
    | (.blocked, f1) => (.blocked, f1)
    | (.spin, f1) => (.spin, f1)

/-- The replacement loop of `acquire`, unrolled at most `fuel` times: leave with `ctx.Err()`
when the deadline has passed, otherwise try `new` and sleep `f.sleep` after a failure. -/
def replaceLoop : Nat → Int → LDAPClientPooledFactory →
    Res (Except Err LDAPClientPooled) × LDAPClientPooledFactory
  | 0, _, f => (.spin, f)
  | fuel + 1, deadline, f =>
    if deadline ≤ f.now then (.ret (.error .deadlineExceeded), f)
    else
      match new f with
      | (.error _, f1) => replaceLoop fuel deadline { f1 with now := f1.now + max f1.sleep 0 }
      | (.ok client, f1) => (.ret (.ok client), f1)

/-- What `acquire` does with the value received from the channel (`none` is the nil pointer a
closed, empty channel yields). `client.IsClosing()` is evaluated first and dereferences the
embedded interface. -/
def afterReceive (fuel : Nat) (deadline : Int) (f : LDAPClientPooledFactory)
    (client : Option LDAPClientPooled) :
    Res (Except Err LDAPClientPooled) × LDAPClientPooledFactory :=
  match client with
  | none => (.panic .nilDereference, f)
  | some c =>
    match c.Client with
    | none => (.panic .nilDereference, f)
    | some cl =>
      if cl.isClosing then
        match f.wg with
        | 0 => (.panic .negativeWaitGroup, f)
        | n + 1 => replaceLoop fuel deadline { f with wg := n }
      else (.ret (.ok c), f)

end LDAPClientPooledFactory

/-- What the scheduler and the other goroutines contribute to one `acquire`. -/
structure Sched where
  /-- While the call waits on an empty buffer, another goroutine hands over this connection
  after this many nanoseconds. -/
  arrival : Option (Nat × LDAPClientPooled)
  /-- The case `select` takes when both of its cases are ready. -/
  pickDone : Bool
deriving DecidableEq

namespace LDAPClientPooledFactory

/-- The outer `select` of `acquire`, with the deadline of `ctx`. -/
def selectClients (fuel : Nat) (sch : Sched) (deadline : Int) (f : LDAPClientPooledFactory) :
    Res (Except Err LDAPClientPooled) × LDAPClientPooledFactory :=
  match f.clients with
  | none =>
    if deadline ≤ f.now then (.ret (.error .deadlineExceeded), f)
    else (.ret (.error .deadlineExceeded), { f with now := deadline })
  | some ch =>
    match ch.buf with
    | c :: rest =>
      if deadline ≤ f.now ∧ sch.pickDone = true then (.ret (.error .deadlineExceeded), f)
      else afterReceive fuel deadline { f with clients := some { ch with buf := rest } } (some c)
    | [] =>
      if ch.closed then
        if deadline ≤ f.now ∧ sch.pickDone = true then (.ret (.error .deadlineExceeded), f)
        else afterReceive fuel deadline f none
      else if deadline ≤ f.now then (.ret (.error .deadlineExceeded), f)
      else
        match sch.arrival with
        | none => (.ret (.error .deadlineExceeded), { f with now := deadline })
        | some (t, c) =>
          if 0 < ch.cap ∧ (f.now + t < deadline ∨ (f.now + t = deadline ∧ sch.pickDone = false)) then
            afterReceive fuel deadline { f with now := f.now + t } (some c)
          else (.ret (.error .deadlineExceeded), { f with now := deadline })

/-- The method `acquire`; `parent` is the deadline of the context passed in (`none` for
`context.Background()`, which is what `GetClient` passes). -/
def acquire (fuel : Nat) (sch : Sched) (parent : Option Int) (f : LDAPClientPooledFactory) :
    Res (Except Err LDAPClientPooled) × LDAPClientPooledFactory :=
  if f.closing then (.ret (.error .poolClosed), f)
  else
    match (if (capClients f : Int) ≠ f.count then Initialize f else (.ret none, f)) with
    | (.ret (some e), f1) => (.ret (.error e), f1)
    | (.panic p, f1) => (.panic p, f1)
    | (.blocked, f1) => (.blocked, f1)
    | (.spin, f1) => (.spin, f1)
    | (.ret none, f1) =>
      selectClients fuel sch
        (match parent with
         | none => f1.now + f1.timeout
         | some d => min d (f1.now + f1.timeout)) f1

/-- The statement `close(f.clients)`. -/
def closeClients (f : LDAPClientPooledFactory) : Res Unit × LDAPClientPooledFactory :=
  match f.clients with
  | none => (.panic .closeOfNilChannel, f)
  | some ch =>
    if ch.closed then (.panic .closeOfClosedChannel, f)
    else (.ret (), { f with clients := some { ch with closed := true } })

/-- A receive `<-f.clients` that is ready now: the value received (`none` is the nil pointer a
closed, empty channel yields) and the pool afterwards; `none` when the receive would wait. -/
def recvReady (f : LDAPClientPooledFactory) :
    Option (Option LDAPClientPooled × LDAPClientPooledFactory) :=
  match f.clients with
  | none => none
  | some ch =>
    match ch.buf with
    | c :: rest => some (some c, { f with clients := some { ch with buf := rest } })
    | [] => if ch.closed then some (none, f) else none

/-- The receive case of the goroutine of `Shutdown`: `_ = client.Client.Close()` and then
`f.wg.Done()`. -/
def drainReceived (f : LDAPClientPooledFactory) (client : Option LDAPClientPooled) :
    Res Unit × LDAPClientPooledFactory :=
  match client with
  | none => (.panic .nilDereference, f)
  | some c =>
    match realClose f c with
    | (.ret _, f1) =>
      (match f1.wg with
       | 0 => (.panic .negativeWaitGroup, f1)
       | n + 1 => (.ret (), { f1 with wg := n }))
    | (.panic p, f1) => (.panic p, f1)
    | (.blocked, f1) => (.blocked, f1)
    | (.spin, f1) => (.spin, f1)

/-- The tail of `Shutdown` once `f.wg.Wait()` has returned: `close(f.clients)`, `return nil`. -/
def finishShutdown (f : LDAPClientPooledFactory) : Res (Option Err) × LDAPClientPooledFactory :=
  match closeClients f with
  | (.ret _, f1) => (.ret none, f1)
  | (.panic p, f1) => (.panic p, f1)
  | (.blocked, f1) => (.blocked, f1)
  | (.spin, f1) => (.spin, f1)

/-- The run of `Shutdown` (after `closing = true`) in which the goroutine reaches its `select`
before the caller gets past `f.wg.Wait()`. The goroutine executes one `select`, once. -/
def drainFirst (f : LDAPClientPooledFactory) : Res (Option Err) × LDAPClientPooledFactory :=
  match recvReady f with
  | some (client, f1) =>
    (match drainReceived f1 client with
     | (.ret _, f2) => if f2.wg = 0 then finishShutdown f2 else (.blocked, f2)
     | (.panic p, f2) => (.panic p, f2)
     | (.blocked, f2) => (.blocked, f2)
     | (.spin, f2) => (.spin, f2))
  | none =>
    if f.wg = 0 then
      -- the caller closes the channel, which wakes the waiting goroutine with a nil pointer
      (match closeClients f with
       | (.ret _, f1) =>
         (match drainReceived f1 none with
          | (.ret _, f2) => (.ret none, f2)
          | (.panic p, f2) => (.panic p, f2)
          | (.blocked, f2) => (.blocked, f2)
          | (.spin, f2) => (.spin, f2))
       | (.panic p, f1) => (.panic p, f1)
       | (.blocked, f1) => (.blocked, f1)
       | (.spin, f1) => (.spin, f1))
    else
      -- the goroutine leaves at the 10 second timeout; the counter stays as it is
      (.blocked, { f with now := f.now + Second * 10 })

end LDAPClientPooledFactory

/-- When the goroutine started by `Shutdown` runs its `select`, relative to the caller. This
matters only when the wait-group counter is zero on entry; otherwise the caller waits and the
goroutine runs first. -/
inductive DrainSched where
  /-- Before the caller gets past `f.wg.Wait()`. -/
  | beforeWait
  /-- After the caller has closed the channel and cancelled the context; `select` takes the
  receive case. -/
  | afterReturnRecv
  /-- After the caller has closed the channel and cancelled the context; `select` takes
  `ctx.Done()`. -/
  | afterReturnDone
deriving DecidableEq

namespace LDAPClientPooledFactory

/-- The method `Shutdown`. A panic of the goroutine is a panic of the program. -/
def Shutdown (sch : DrainSched) (f0 : LDAPClientPooledFactory) :
    Res (Option Err) × LDAPClientPooledFactory :=
  if f0.wg = 0 then
    match sch with
    | .beforeWait => drainFirst { f0 with closing := true }
    | .afterReturnDone => finishShutdown { f0 with closing := true }
    | .afterReturnRecv =>
      match closeClients { f0 with closing := true } with
      | (.ret _, f1) =>
        (match recvReady f1 with
         | some (client, f2) =>
           (match drainReceived f2 client with
            | (.ret _, f3) => (.ret none, f3)
            | (.panic p, f3) => (.panic p, f3)
            | (.blocked, f3) => (.blocked, f3)
            | (.spin, f3) => (.spin, f3))
         | none => (.ret none, f1))
      | (.panic p, f1) => (.panic p, f1)
      | (.blocked, f1) => (.blocked, f1)
      | (.spin, f1) => (.spin, f1)
  else drainFirst { f0 with closing := true }

end LDAPClientPooledFactory

/-- The method `Close` of `LDAPClientPooled`. -/
def LDAPClientPooled.Close (c : LDAPClientPooled) (pool : LDAPClientPooledFactory) :
    Res (Option Err) × LDAPClientPooledFactory :=
  pool.relinquish c

/-- What `GetClient` hands to its caller: a connection of the inner factory, or a wrapper. -/
inductive AnyClient where
  | raw (c : Option LDAPClient)
  | pooled (c : LDAPClientPooled)
deriving DecidableEq

namespace LDAPClientPooledFactory

/-- The method `GetClient`; `withOpts` is `len(opts) != 0`. -/
def GetClient (withOpts : Bool) (fuel : Nat) (sch : Sched) (f : LDAPClientPooledFactory) :
    Res (Except Err AnyClient) × LDAPClientPooledFactory :=
  if withOpts then
    match f.factory f.calls with
    | .error e =>
      (.ret (.error (.external e)), { f with calls := f.calls + 1, now := f.now + f.dial })
    | .ok client =>
      (.ret (.ok (.raw client)), { f with calls := f.calls + 1, now := f.now + f.dial })
  else
    match acquire fuel sch none f with
    | (.ret (.ok c), f1) => (.ret (.ok (.pooled c)), f1)
    | (.ret (.error e), f1) => (.ret (.error e), f1)
    | (.panic p, f1) => (.panic p, f1)
    | (.blocked, f1) => (.blocked, f1)
    | (.spin, f1) => (.spin, f1)

/-- The representation invariant of the pool: a channel never holds more values than its
capacity, and the channel is closed only by `Shutdown`, which sets `closing` first. -/
def wellFormed (f : LDAPClientPooledFactory) : Bool :=
  match f.clients with
  | none => true
  | some ch => decide (ch.buf.length ≤ ch.cap) && (!ch.closed || f.closing)

end LDAPClientPooledFactory

/-! ## Sample environments -/

/-- The capacity limit of the sample environments, 2^45: every runtime makes a channel of a
few pointers, and no runtime on a 64-bit platform makes one of more than 2^45 pointers (it
caps an allocation at 2^48 bytes and a pointer takes 8). -/
def sampleLimit : Nat := 35184372088832

/-- An inner factory whose every call yields a fresh live connection whose close succeeds;
its calls take no time. -/
def alwaysOk : Env :=
  { factory := fun n => .ok (some { id := n, isClosing := false, closeErr := none }),
    chanLimit := sampleLimit, dial := 0 }

/-- An inner factory whose first `k` calls succeed and whose later calls all fail; its calls
take no time. -/
def okThenFail (k : Nat) : Env :=
  { factory := fun n =>
      if n < k then .ok (some { id := n, isClosing := false, closeErr := none }) else .error 1,
    chanLimit := sampleLimit, dial := 0 }

/-- An inner factory that reports success but hands out a nil client. -/
def alwaysNil : Env :=
  { factory := fun _ => .ok none, chanLimit := sampleLimit, dial := 0 }

/-- A scheduler under which nothing is handed over during an `acquire`. -/
def quiet : Sched := { arrival := none, pickDone := false }

/-- A pool of count 1, built by the constructor and initialised with one live connection. -/
def singlePool : LDAPClientPooledFactory :=
  (NewLDAPConnectionFactoryPooled alwaysOk 1 2 0).Initialize.2

/-- The pool `singlePool` after a completed `Shutdown`. -/
def shutPool : LDAPClientPooledFactory :=
  (singlePool.Shutdown .beforeWait).2

/-- A wrapper around a live connection whose close succeeds. -/
def liveConn (n : Nat) : LDAPClientPooled :=
  { ptr := n, Client := some { id := n, isClosing := false, closeErr := none } }

/-- A wrapper around a connection that is closing. -/
def deadConn (n : Nat) : LDAPClientPooled :=
  { ptr := n, Client := some { id := n, isClosing := true, closeErr := none } }

/-- A pool of count 2, built by the constructor and initialised with two live connections,
none of them checked out. -/
def pairPool : LDAPClientPooledFactory :=
  (NewLDAPConnectionFactoryPooled alwaysOk 2 2 0).Initialize.2

/-- The pool `singlePool` after one `acquire`: its only connection is checked out. -/
def lentPool : LDAPClientPooledFactory :=
  (singlePool.acquire 1 quiet none).2

/-- A pool of count 1 initialised from an inner factory that hands out a nil client. -/
def nilPool : LDAPClientPooledFactory :=
  (NewLDAPConnectionFactoryPooled alwaysNil 1 2 0).Initialize.2

/-- A pool of count 1 whose inner factory succeeds once and fails ever after, initialised,
with its only connection checked out. -/
def strandedPool : LDAPClientPooledFactory :=
  ((NewLDAPConnectionFactoryPooled (okThenFail 1) 1 2 0).Initialize.2.acquire 1 quiet none).2

/-- An inner factory whose call number 1 fails and whose other calls succeed. -/
def flaky : Env :=
  { factory := fun n =>
      if n = 1 then .error 1 else .ok (some { id := n, isClosing := false, closeErr := none }),
    chanLimit := sampleLimit, dial := 0 }

/-- A pool of count 1 and timeout 5 s whose single buffered connection has died: it was
acquired and handed back while closing. -/
def revivablePool : LDAPClientPooledFactory :=
  ((((NewLDAPConnectionFactoryPooled flaky 1 2 (5 * Second)).Initialize.2.acquire 1 quiet
      none).2).relinquish (deadConn 0)).2

/-- A pool of count 2 whose inner factory succeeds once and fails ever after. It is
initialised (one connection), the connection is acquired, dies and is relinquished twice, and
a further `acquire` drops one of the two dead entries and gives up at its deadline: the buffer
holds the other dead entry and the wait-group counter is 0. -/
def drainedPool : LDAPClientPooledFactory :=
  (((((NewLDAPConnectionFactoryPooled (okThenFail 1) 2 2 0).Initialize.2.acquire 1 quiet
      none).2.relinquish (deadConn 0)).2.relinquish (deadConn 0)).2.acquire 3 quiet none).2

/-- The pool `strandedPool` on a clock on which one call of the inner factory takes 1 ms. -/
def slowStrandedPool : LDAPClientPooledFactory :=
  ((NewLDAPConnectionFactoryPooled { okThenFail 1 with dial := 1000000 } 1 2
      0).Initialize.2.acquire 1 quiet none).2

/-! ## Sequences of operations -/

/-- An operation of a caller on the pool, taken as one atomic step. An atomic `acquire` sees no
hand-over from another goroutine while it runs, and is called as `GetClient` calls it. -/
inductive Op where
  | acquire (fuel : Nat) (pickDone : Bool)
  | relinquish (c : LDAPClientPooled)
deriving DecidableEq

/-- The pool together with the bookkeeping of its callers. -/
structure World where
  pool : LDAPClientPooledFactory
  /-- The wrappers returned by `acquire` and not relinquished since. -/
  out : List Nat
  /-- The wrappers `acquire` has returned so far. -/
  issued : List Nat

/-- One operation. A wrapper is identified by its allocation; the state of its underlying
connection at the time it is relinquished is whatever the caller passes. -/
def step (w : World) : Op → World
  | .acquire fuel pickDone =>
    match w.pool.acquire fuel { arrival := none, pickDone := pickDone } none with
    | (.ret (.ok c), p) => { pool := p, out := c.ptr :: w.out, issued := c.ptr :: w.issued }
    | (_, p) => { w with pool := p }
  | .relinquish c => { w with pool := (w.pool.relinquish c).2, out := w.out.erase c.ptr }

/-- A sequence of operations. -/
def run (w : World) (ops : List Op) : World :=
  ops.foldl step w

/-- Every `relinquish` of the sequence is given a wrapper that an earlier `acquire` returned. -/
def returnedEarlier : World → List Op → Bool
  | _, [] => true
  | w, .relinquish c :: ops =>
    decide (c.ptr ∈ w.issued) && returnedEarlier (step w (.relinquish c)) ops
  | w, op :: ops => returnedEarlier (step w op) ops

/-- Every `relinquish` of the sequence is given a wrapper that is checked out at that moment:
returned by an earlier `acquire` and not relinquished since. -/
def checkedOutOnly : World → List Op → Bool
  | _, [] => true
  | w, .relinquish c :: ops =>
    decide (c.ptr ∈ w.out) && checkedOutOnly (step w (.relinquish c)) ops
  | w, op :: ops => checkedOutOnly (step w op) ops

/-- A pool built by the constructor and then initialised, with nothing checked out. -/
def initialised (env : Env) (count retries timeout : Int) : World :=
  { pool := (NewLDAPConnectionFactoryPooled env count retries timeout).Initialize.2,
    out := [], issued := [] }

/-! ## The constructor -/

/-- C6: for every input the constructor yields a pool whose count is the given count when it is
at least 1 and 5 otherwise, whose timeout is the given timeout when it is positive and 10
seconds otherwise, and whose sleep is that timeout divided, truncating, by the effective
retries (the given retries when at least 1, and 2 otherwise); so count is at least 1, timeout
is positive and retries is at least 1 for every constructed pool. -/
theorem constructor_defaults (env : Env)
    (count retries timeout : Int) :
    (NewLDAPConnectionFactoryPooled env count retries timeout).count
        = (if 1 ≤ count then count else 5)
      ∧ (NewLDAPConnectionFactoryPooled env count retries timeout).timeout
        = (if 0 < timeout then timeout else 10 * Second)
      ∧ (NewLDAPConnectionFactoryPooled env count retries timeout).sleep
        = Int.tdiv (NewLDAPConnectionFactoryPooled env count retries timeout).timeout
            (if 1 ≤ retries then retries else 2)
      ∧ 1 ≤ (NewLDAPConnectionFactoryPooled env count retries timeout).count
      ∧ 0 < (NewLDAPConnectionFactoryPooled env count retries timeout).timeout
      ∧ 1 ≤ (if 1 ≤ retries then retries else 2) := by
  simp only [NewLDAPConnectionFactoryPooled, Second]
  refine ⟨?_, ?_, ?_, ?_, ?_, ?_⟩ <;> split_ifs <;> first | rfl | omega

namespace LDAPClientPooledFactory

/-! ## What each method leaves alone -/

theorem new_frame (f : LDAPClientPooledFactory) :
    (new f).2.clients = f.clients ∧ (new f).2.closing = f.closing
      ∧ (new f).2.count = f.count ∧ (new f).2.timeout = f.timeout
      ∧ (new f).2.sleep = f.sleep ∧ (new f).2.factory = f.factory
      ∧ (new f).2.dial = f.dial ∧ (new f).2.closeLog = f.closeLog
      ∧ (new f).2.chanLimit = f.chanLimit := by
  unfold new
  split_ifs
  · simp
  · split <;> simp

theorem send_frame (f : LDAPClientPooledFactory) (c : LDAPClientPooled) :
    (send f c).2.closing = f.closing ∧ (send f c).2.count = f.count
      ∧ (send f c).2.timeout = f.timeout ∧ (send f c).2.sleep = f.sleep
      ∧ (send f c).2.factory = f.factory ∧ (send f c).2.now = f.now
      ∧ (send f c).2.closeLog = f.closeLog ∧ (send f c).2.wg = f.wg
      ∧ (send f c).2.calls = f.calls := by
  unfold send
  split
  · simp
  · split_ifs <;> simp

theorem realClose_frame (f : LDAPClientPooledFactory) (c : LDAPClientPooled) :
    (realClose f c).2.closing = f.closing ∧ (realClose f c).2.count = f.count
      ∧ (realClose f c).2.clients = f.clients ∧ (realClose f c).2.wg = f.wg
      ∧ (realClose f c).2.calls = f.calls ∧ (realClose f c).2.now = f.now := by
  unfold realClose
  split <;> simp


theorem initLoop_spec (k : Nat) : ∀ (errs : Nat) (f : LDAPClientPooledFactory) (ch : Chan),
    f.clients = some ch → ch.closed = false → ch.buf.length + k ≤ ch.cap →
    ∃ news : List LDAPClientPooled,
      initLoop k errs f =
        (.ret (errs + k - news.length),
         { f with clients := some { ch with buf := ch.buf ++ news }, calls := f.calls + k,
                  wg := f.wg + news.length, nextPtr := f.nextPtr + news.length,
                  now := f.now + ((k * f.dial : Nat) : Int) })
      ∧ news.length ≤ k
      ∧ news.map (fun c => c.Client)
          = (List.range k).filterMap (fun i => (f.factory (f.calls + i)).toOption) := by
  induction k with
  | zero =>
    intro errs f ch hch _ _
    refine ⟨[], ?_, by simp, by simp⟩
    cases f
    cases ch
    simp_all [initLoop]
  | succ k ih =>
    intro errs f ch hch hopen hlen
    have hcap : ¬ capClients f ≤ lenClients f := by
      simp [capClients, lenClients, hch]; omega
    have hnow : f.now + (f.dial : Int) + ((k * f.dial : Nat) : Int)
        = f.now + (((k + 1) * f.dial : Nat) : Int) := by
      push_cast; ring
    cases hfa : f.factory f.calls with
    | error e =>
      obtain ⟨news, h1, h2, h3⟩ := ih (errs + 1)
        { f with calls := f.calls + 1, now := f.now + f.dial } ch hch hopen (by omega)
      refine ⟨news, ?_, by omega, ?_⟩
      · simp only [initLoop, new, hcap, if_false, hfa, h1]
        have : errs + 1 + k - news.length = errs + (k + 1) - news.length := by omega
        simp only [this, hnow]
        simp [Nat.add_assoc, Nat.add_comm 1 k]
      · rw [List.range_succ_eq_map, List.filterMap_cons]
        have hn : (Except.error e : Except Nat (Option LDAPClient)).toOption = none := rfl
        simp only [Nat.add_zero, hfa, hn, List.filterMap_map]
        rw [h3]
        congr 1
        funext i
        simp [Function.comp, Nat.add_assoc, Nat.add_comm 1 i]
    | ok client =>
      have hlt : ch.buf.length < ch.cap := by omega
      obtain ⟨news, h1, h2, h3⟩ := ih errs
        { f with clients := some ⟨ch.cap, ch.buf ++ [⟨f.nextPtr, client⟩], ch.closed⟩,
                 calls := f.calls + 1, wg := f.wg + 1, nextPtr := f.nextPtr + 1,
                 now := f.now + f.dial }
        ⟨ch.cap, ch.buf ++ [⟨f.nextPtr, client⟩], ch.closed⟩ rfl hopen
        (by simp; omega)
      refine ⟨⟨f.nextPtr, client⟩ :: news, ?_, by simp; omega, ?_⟩
      · have : errs + k - news.length = errs + (k + 1) - (news.length + 1) := by omega
        simp only [hopen, hnow] at h1
        simp [initLoop, new, hcap, hfa, send, hch, hopen, hlt, h1, this, Nat.add_assoc,
          Nat.add_comm 1 k, Nat.add_comm 1 news.length]
      · rw [List.range_succ_eq_map, List.filterMap_cons]
        have hn : (Except.ok client : Except Nat (Option LDAPClient)).toOption = some client := rfl
        simp only [Nat.add_zero, hfa, hn, List.filterMap_map, List.map_cons]
        rw [h3]
        congr 1
        congr 1
        funext i
        simp [Function.comp, Nat.add_assoc, Nat.add_comm 1 i]

theorem toOption_eq_none_iff (r : Except Nat (Option LDAPClient)) :
    r.toOption = none ↔ ∃ e, r = .error e := by
  cases r with
  | error e => exact ⟨fun _ => ⟨e, rfl⟩, fun _ => rfl⟩
  | ok c => exact ⟨fun h => (by cases h), fun ⟨e, h⟩ => (by cases h)⟩

/-- C5, amended: on a pool with count at least 1 and no larger than the largest capacity with
which the runtime makes a channel, `Initialize` makes exactly count calls to the inner
factory, whatever their outcomes; it returns the "no connections could be established" error
if and only if every one of these calls fails, and returns nil otherwise; in both cases the
buffer is a fresh open channel of capacity count that holds wrappers of exactly the clients
the successful calls produced, in the order of the calls. -/
theorem initialize_spec (f : LDAPClientPooledFactory) (hcount : 1 ≤ f.count)
    (hlimit : f.count ≤ f.chanLimit) :
    (Initialize f).2.calls = f.calls + f.count.toNat
      ∧ ((Initialize f).1 = .ret (some .noConnections)
          ↔ ∀ i, i < f.count.toNat → ∃ e, f.factory (f.calls + i) = .error e)
      ∧ ((Initialize f).1 = .ret (some .noConnections) ∨ (Initialize f).1 = .ret none)
      ∧ ∃ buf : List LDAPClientPooled,
          (Initialize f).2.clients = some { cap := f.count.toNat, buf := buf, closed := false }
          ∧ buf.map (fun c => c.Client)
              = (List.range f.count.toNat).filterMap
                  (fun i => (f.factory (f.calls + i)).toOption) := by
  obtain ⟨news, h1, h2, h3⟩ := initLoop_spec f.count.toNat 0
    { f with clients := some { cap := f.count.toNat, buf := [], closed := false } }
    { cap := f.count.toNat, buf := [], closed := false } rfl rfl (by simp)
  dsimp only at h1 h3
  have hneg : ¬ (f.count < 0 ∨ (f.chanLimit : Int) < f.count) := by omega
  have hnil : news = [] ↔ ∀ i, i < f.count.toNat → ∃ e, f.factory (f.calls + i) = .error e := by
    rw [← List.map_eq_nil_iff, h3, List.filterMap_eq_nil_iff]
    simp only [List.mem_range, toOption_eq_none_iff]
  have hres : (Initialize f).1 = if news = [] then .ret (some .noConnections) else .ret none := by
    simp only [Initialize, hneg, if_false, h1]
    by_cases hn : news = []
    · subst hn
      have h0 : 0 ≤ f.count := by omega
      simp [h0]
    · have hpos : 0 < news.length := List.length_pos.mpr hn
      have : ¬ ((f.count.toNat - news.length : Nat) : Int) = f.count := by omega
      simp [this, hn]
  refine ⟨?_, ?_, ?_, news, ?_, h3⟩
  · simp only [Initialize, hneg, if_false, h1]
    split_ifs <;> rfl
  · rw [hres, ← hnil]
    by_cases hn : news = [] <;> simp [hn]
  · rw [hres]
    by_cases hn : news = [] <;> simp [hn]
  · simp only [Initialize, hneg, if_false, h1]
    split_ifs <;> simp

/-- Witness of C5, amended: a pool of count 3 whose inner factory succeeds twice and then
fails. -/
theorem initialize_spec_witness :
    1 ≤ (NewLDAPConnectionFactoryPooled (okThenFail 2) 3 2 0).count
      ∧ (NewLDAPConnectionFactoryPooled (okThenFail 2) 3 2 0).count
          ≤ (NewLDAPConnectionFactoryPooled (okThenFail 2) 3 2 0).chanLimit
      ∧ (Initialize (NewLDAPConnectionFactoryPooled (okThenFail 2) 3 2 0)).2.calls
          = (NewLDAPConnectionFactoryPooled (okThenFail 2) 3 2 0).calls
            + (NewLDAPConnectionFactoryPooled (okThenFail 2) 3 2 0).count.toNat :=
  ⟨by decide, by decide,
   (initialize_spec (NewLDAPConnectionFactoryPooled (okThenFail 2) 3 2 0)
      (by decide) (by decide)).1⟩

/-- C5, as stated, fails: the constructor keeps the count 2^60, and on that pool
`make(chan *LDAPClientPooled, f.count)` panics with "makechan: size out of range" (no runtime
makes a channel of 2^60 pointers): `Initialize` does not return, makes no call to the inner
factory and leaves the channel nil. -/
theorem initialize_panics_on_huge_count :
    1 ≤ (NewLDAPConnectionFactoryPooled alwaysOk 1152921504606846976 2 0).count
      ∧ (NewLDAPConnectionFactoryPooled alwaysOk 1152921504606846976 2 0).count
          = 1152921504606846976
      ∧ (Initialize (NewLDAPConnectionFactoryPooled alwaysOk 1152921504606846976 2 0)).1
          = .panic .makeChanSize
      ∧ (Initialize (NewLDAPConnectionFactoryPooled alwaysOk 1152921504606846976 2 0)).2.calls
          = 0
      ∧ (Initialize (NewLDAPConnectionFactoryPooled alwaysOk 1152921504606846976 2 0)).2.clients
          = none
      ∧ ¬ ((Initialize (NewLDAPConnectionFactoryPooled alwaysOk 1152921504606846976 2 0)).2.calls
          = (NewLDAPConnectionFactoryPooled alwaysOk 1152921504606846976 2 0).calls
            + (NewLDAPConnectionFactoryPooled alwaysOk 1152921504606846976 2 0).count.toNat) := by
  decide

/-! ## Closing -/

theorem finishShutdown_closing (f : LDAPClientPooledFactory) :
    (finishShutdown f).2.closing = f.closing := by
  unfold finishShutdown closeClients
  split <;> rename_i h <;> revert h <;> split <;> (try split_ifs) <;> intro h <;> cases h <;> rfl

theorem drainReceived_closing (f : LDAPClientPooledFactory) (c : Option LDAPClientPooled) :
    (drainReceived f c).2.closing = f.closing := by
  unfold drainReceived realClose
  cases c with
  | none => rfl
  | some c =>
    cases hc : c.Client with
    | none => simp [hc]
    | some cl =>
      cases hw : f.wg <;> simp [hc, hw]

theorem recvReady_closing (f f1 : LDAPClientPooledFactory) (c : Option LDAPClientPooled)
    (h : recvReady f = some (c, f1)) : f1.closing = f.closing := by
  unfold recvReady at h
  split at h
  · cases h
  · split at h
    · cases h; rfl
    · split_ifs at h
      cases h; rfl

theorem closeClients_closing (f : LDAPClientPooledFactory) :
    (closeClients f).2.closing = f.closing := by
  unfold closeClients
  split
  · rfl
  · split_ifs <;> rfl

theorem drainFirst_closing (f : LDAPClientPooledFactory) :
    (drainFirst f).2.closing = f.closing := by
  unfold drainFirst
  cases hr : recvReady f with
  | none =>
    simp only
    split_ifs
    · have h1 := closeClients_closing f
      cases hcc : closeClients f with
      | mk r f1 =>
        rw [hcc] at h1
        cases r with
        | ret a =>
          simp only
          have h2 := drainReceived_closing f1 none
          cases hd : drainReceived f1 none with
          | mk r2 f2 =>
            rw [hd] at h2
            cases r2 <;> simp_all
        | panic p => simpa using h1
        | blocked => simpa using h1
        | spin => simpa using h1
    · rfl
  | some v =>
    obtain ⟨c, f1⟩ := v
    have h0 := recvReady_closing f f1 c hr
    have h2 := drainReceived_closing f1 c
    simp only
    cases hd : drainReceived f1 c with
    | mk r2 f2 =>
      rw [hd] at h2
      cases r2 with
      | ret a =>
        simp only
        split_ifs
        · rw [finishShutdown_closing]; simp_all
        · simp_all
      | panic p => simp_all
      | blocked => simp_all
      | spin => simp_all

theorem Shutdown_closing (sch : DrainSched) (f : LDAPClientPooledFactory) :
    (Shutdown sch f).2.closing = true := by
  unfold Shutdown
  split_ifs
  · cases sch with
    | beforeWait => simp only; rw [drainFirst_closing]
    | afterReturnDone => simp only; rw [finishShutdown_closing]
    | afterReturnRecv =>
      simp only
      have h1 := closeClients_closing { f with closing := true }
      cases hcc : closeClients { f with closing := true } with
      | mk r f1 =>
        rw [hcc] at h1
        cases r with
        | ret a =>
          simp only
          cases hr : recvReady f1 with
          | none => simpa using h1
          | some v =>
            obtain ⟨c, f2⟩ := v
            have h0 := recvReady_closing f1 f2 c hr
            have h2 := drainReceived_closing f2 c
            simp only
            cases hd : drainReceived f2 c with
            | mk r2 f3 =>
              rw [hd] at h2
              cases r2 <;> simp_all
        | panic p => simpa using h1
        | blocked => simpa using h1
        | spin => simpa using h1
  · rw [drainFirst_closing]

theorem initLoop_frame (k : Nat) : ∀ (errs : Nat) (f : LDAPClientPooledFactory),
    (initLoop k errs f).2.closing = f.closing ∧ (initLoop k errs f).2.count = f.count
      ∧ (initLoop k errs f).2.factory = f.factory := by
  induction k with
  | zero => intro errs f; simp [initLoop]
  | succ k ih =>
    intro errs f
    have hn := new_frame f
    simp only [initLoop]
    cases hnew : new f with
    | mk r f1 =>
      rw [hnew] at hn
      cases r with
      | error e =>
        simp only
        obtain ⟨h1, h2, h3⟩ := ih (errs + 1) f1
        exact ⟨h1.trans hn.2.1, h2.trans hn.2.2.1, h3.trans hn.2.2.2.2.2.1⟩
      | ok c =>
        simp only
        have hs := send_frame f1 c
        cases hsend : send f1 c with
        | mk r2 f2 =>
          rw [hsend] at hs
          cases r2 with
          | ret a =>
            simp only
            obtain ⟨h1, h2, h3⟩ := ih errs f2
            exact ⟨h1.trans (hs.1.trans hn.2.1), h2.trans (hs.2.1.trans hn.2.2.1),
              h3.trans (hs.2.2.2.2.1.trans hn.2.2.2.2.2.1)⟩
          | panic p =>
            exact ⟨hs.1.trans hn.2.1, hs.2.1.trans hn.2.2.1, hs.2.2.2.2.1.trans hn.2.2.2.2.2.1⟩
          | blocked =>
            exact ⟨hs.1.trans hn.2.1, hs.2.1.trans hn.2.2.1, hs.2.2.2.2.1.trans hn.2.2.2.2.2.1⟩
          | spin =>
            exact ⟨hs.1.trans hn.2.1, hs.2.1.trans hn.2.2.1, hs.2.2.2.2.1.trans hn.2.2.2.2.2.1⟩

theorem Initialize_closing (f : LDAPClientPooledFactory) :
    (Initialize f).2.closing = f.closing := by
  unfold Initialize
  split_ifs
  · rfl
  · have h := (initLoop_frame f.count.toNat 0
      { f with clients := some { cap := f.count.toNat, buf := [], closed := false } }).1
    cases hl : initLoop f.count.toNat 0
      { f with clients := some { cap := f.count.toNat, buf := [], closed := false } } with
    | mk r f1 =>
      rw [hl] at h
      cases r with
      | ret a => simp only; split_ifs <;> simpa using h
      | panic p => simpa using h
      | blocked => simpa using h
      | spin => simpa using h

theorem GetClient_closing_of_closing (withOpts : Bool) (fuel : Nat) (sch : Sched)
    (f : LDAPClientPooledFactory) (hcl : f.closing = true) :
    (GetClient withOpts fuel sch f).2.closing = true := by
  unfold GetClient
  cases withOpts with
  | true => simp only [if_true]; split <;> simpa using hcl
  | false => simp [acquire, hcl]

/-- C2: `Shutdown` sets the closing flag, and in every state where it is set no operation
(`Shutdown`, `Initialize`, `new`, `GetClient`, `acquire`, `relinquish`) resets it; in such a
state `acquire` returns the "pool is closed" error and leaves the whole state as it was (no
waiting, no call to the inner factory, nothing removed from the buffer), and `relinquish` of a
wrapper with an underlying connection makes one real close of it, returns the result of that
close, and changes nothing else (the wrapper is not put into the buffer). -/
theorem closing_terminal (f : LDAPClientPooledFactory) (hcl : f.closing = true) :
    (∀ (g : LDAPClientPooledFactory) (sch : DrainSched), (Shutdown sch g).2.closing = true)
      ∧ (Initialize f).2.closing = true ∧ (new f).2.closing = true
      ∧ (∀ withOpts fuel sch, (GetClient withOpts fuel sch f).2.closing = true)
      ∧ (∀ c, (relinquish f c).2.closing = true)
      ∧ (∀ fuel sch parent, acquire fuel sch parent f = (.ret (.error .poolClosed), f))
      ∧ (∀ c cl, c.Client = some cl →
          relinquish f c
            = (.ret (cl.closeErr.map Err.external),
               { f with closeLog := f.closeLog ++ [cl.id] })) := by
  refine ⟨fun g sch => Shutdown_closing sch g, ?_, ?_, ?_, ?_, ?_, ?_⟩
  · rw [Initialize_closing]; exact hcl
  · rw [(new_frame f).2.1]; exact hcl
  · intro withOpts fuel sch
    exact GetClient_closing_of_closing withOpts fuel sch f hcl
  · intro c
    simp only [relinquish, hcl, if_true]
    rw [(realClose_frame f c).1]; exact hcl
  · intro fuel sch parent
    simp [acquire, hcl]
  · intro c cl hc
    simp [relinquish, hcl, realClose, hc]

/-- Witness of C2: the pool of count 1 after its shutdown. -/
theorem closing_terminal_witness :
    shutPool.closing = true
      ∧ ∀ fuel sch parent, acquire fuel sch parent shutPool = (.ret (.error .poolClosed), shutPool) :=
  ⟨by decide, (closing_terminal shutPool (by decide)).2.2.2.2.2.1⟩

/-! ## Relinquish on an open pool -/

/-- C4: on a pool that is not closing, `relinquish c` does the following. If the buffer holds
as many wrappers as its capacity, the buffer is left as it is and, `c` having an underlying
connection, exactly one real close is made on it and the result of that close is returned
(the call returns; it does not wait). Otherwise `c` is appended at the tail of the buffer, no
close is made, and nil is returned. -/
theorem relinquish_open (f : LDAPClientPooledFactory) (c : LDAPClientPooled)
    (hopen : f.closing = false) (hwf : wellFormed f = true) :
    (capClients f = lenClients f →
        (relinquish f c).2.clients = f.clients
          ∧ ∀ cl, c.Client = some cl →
              relinquish f c
                = (.ret (cl.closeErr.map Err.external),
                   { f with closeLog := f.closeLog ++ [cl.id] }))
      ∧ (capClients f ≠ lenClients f →
          ∃ ch, f.clients = some ch
            ∧ relinquish f c
                = (.ret none, { f with clients := some { ch with buf := ch.buf ++ [c] } })) := by
  constructor
  · intro hfull
    refine ⟨?_, ?_⟩
    · simp only [relinquish, hopen, hfull, if_true, Bool.false_eq_true, if_false]
      exact (realClose_frame f c).2.2.1
    · intro cl hc
      simp [relinquish, hopen, hfull, realClose, hc]
  · intro hne
    cases hch : f.clients with
    | none => simp [capClients, lenClients, hch] at hne
    | some ch =>
      simp only [wellFormed, hch, hopen, Bool.and_eq_true, decide_eq_true_eq, Bool.or_false,
        Bool.not_eq_true'] at hwf
      have hlt : ch.buf.length < ch.cap := by
        simp only [capClients, lenClients, hch] at hne
        omega
      refine ⟨ch, rfl, ?_⟩
      simp [relinquish, hopen, hne, send, hch, hwf.2, hlt]

/-- Witness of C4: the pool of count 2 holding two connections, which is full. -/
theorem relinquish_open_witness :
    (initialised alwaysOk 2 2 0).pool.closing = false
      ∧ wellFormed (initialised alwaysOk 2 2 0).pool = true
      ∧ (capClients (initialised alwaysOk 2 2 0).pool = lenClients (initialised alwaysOk 2 2 0).pool →
          (relinquish (initialised alwaysOk 2 2 0).pool (liveConn 7)).2.clients
            = (initialised alwaysOk 2 2 0).pool.clients) :=
  ⟨by decide, by decide,
   fun h => ((relinquish_open (initialised alwaysOk 2 2 0).pool (liveConn 7)
      (by decide) (by decide)).1 h).1⟩

/-! ## Use after shutdown -/

/-- C7, as stated, fails: on the pool of count 1 on which `Shutdown` has completed,
`relinquish` of the wrapper the pool created (its underlying close succeeds) returns nil. -/
theorem relinquish_after_shutdown_succeeds :
    (singlePool.Shutdown .beforeWait).1 = .ret none
      ∧ (relinquish shutPool (liveConn 0)).1 = .ret none
      ∧ (relinquish shutPool (liveConn 0)).1 ≠ .ret (some .poolClosed)
      ∧ (relinquish shutPool (liveConn 0)).1 ≠ .panic .sendOnClosedChannel := by
  decide

/-- C7, amended: on every pool on which `Shutdown` has completed, `acquire` returns the "pool
is closed" error, whereas `relinquish c` makes a real close of the underlying connection of
`c` and returns the result of that close, which is nil when the close succeeds; it neither
returns the "pool is closed" error nor sends on the closed buffer. -/
theorem use_after_shutdown (f f1 : LDAPClientPooledFactory) (sch : DrainSched)
    (h : Shutdown sch f = (.ret none, f1)) :
    (∀ fuel s parent, acquire fuel s parent f1 = (.ret (.error .poolClosed), f1))
      ∧ (∀ c cl, c.Client = some cl →
          relinquish f1 c
            = (.ret (cl.closeErr.map Err.external),
               { f1 with closeLog := f1.closeLog ++ [cl.id] }))
      ∧ (∀ c, (relinquish f1 c).1 ≠ .ret (some .poolClosed)
          ∧ (relinquish f1 c).1 ≠ .panic .sendOnClosedChannel) := by
  have hcl : f1.closing = true := by
    have := Shutdown_closing sch f
    rw [h] at this
    exact this
  refine ⟨?_, ?_, ?_⟩
  · intro fuel s parent
    simp [acquire, hcl]
  · intro c cl hc
    simp [relinquish, hcl, realClose, hc]
  · intro c
    cases hc : c.Client with
    | none => simp [relinquish, hcl, realClose, hc]
    | some cl =>
      cases he : cl.closeErr <;> simp [relinquish, hcl, realClose, hc, he]

/-- Witness of C7, amended: the pool of count 1 and its shutdown. -/
theorem use_after_shutdown_witness :
    Shutdown .beforeWait singlePool = (.ret none, shutPool)
      ∧ ∀ fuel s parent, acquire fuel s parent shutPool = (.ret (.error .poolClosed), shutPool) :=
  ⟨rfl, (use_after_shutdown singlePool shutPool .beforeWait rfl).1⟩

/-! ## Shutdown -/

theorem step_closing (w : World) (op : Op) (h : w.pool.closing = true) :
    (step w op).pool.closing = true ∧ (step w op).pool.wg = w.pool.wg
      ∧ (step w op).pool.clients = w.pool.clients := by
  cases op with
  | acquire fuel pick => simp [step, acquire, h]
  | relinquish c =>
    simp only [step, relinquish, h, if_true]
    exact ⟨(realClose_frame w.pool c).1.trans h, (realClose_frame w.pool c).2.2.2.1,
      (realClose_frame w.pool c).2.2.1⟩

theorem run_closing (ops : List Op) : ∀ (w : World), w.pool.closing = true →
    (run w ops).pool.closing = true ∧ (run w ops).pool.wg = w.pool.wg
      ∧ (run w ops).pool.clients = w.pool.clients := by
  induction ops with
  | nil => intro w h; exact ⟨h, rfl, rfl⟩
  | cons op ops ih =>
    intro w h
    obtain ⟨h1, h2, h3⟩ := step_closing w op h
    obtain ⟨h4, h5, h6⟩ := ih (step w op) h1
    exact ⟨h4, h5.trans h2, h6.trans h3⟩

/-- C8, evaluated: on the pool of count 2 that holds two connections, none checked out (the
wait-group counter is 2), `Shutdown` closes the connection at the head of the buffer and no
other, does not close the buffer, and waits on a counter that stays at 1, under every
scheduling of its goroutine; after any later sequence of `acquire` and `relinquish` calls the
second connection is still in the buffer of the open channel and the counter is still 1. -/
theorem shutdown_closes_one_of_two (sch : DrainSched) (ops : List Op) (out issued : List Nat) :
    pairPool.clients = some { cap := 2, buf := [liveConn 0, liveConn 1], closed := false }
      ∧ pairPool.wg = 2 ∧ pairPool.closing = false
      ∧ (Shutdown sch pairPool).1 = .blocked
      ∧ (Shutdown sch pairPool).2.closeLog = [0]
      ∧ (run { pool := (Shutdown sch pairPool).2, out := out, issued := issued } ops).pool.clients
          = some { cap := 2, buf := [liveConn 1], closed := false }
      ∧ (run { pool := (Shutdown sch pairPool).2, out := out, issued := issued } ops).pool.wg
          = 1 := by
  have hcl : (Shutdown sch pairPool).2.closing = true := Shutdown_closing sch pairPool
  have hwg : (Shutdown sch pairPool).2.wg = 1 := by cases sch <;> decide
  have hbuf : (Shutdown sch pairPool).2.clients
      = some { cap := 2, buf := [liveConn 1], closed := false } := by cases sch <;> decide
  obtain ⟨_, h2, h3⟩ := run_closing ops
    { pool := (Shutdown sch pairPool).2, out := out, issued := issued } hcl
  refine ⟨by decide, by decide, by decide, ?_, ?_, h3.trans hbuf, h2.trans hwg⟩
  · cases sch <;> decide
  · cases sch <;> decide

/-- C9, evaluated: on the pool of count 1 whose only connection is checked out (empty buffer,
wait-group counter 1), `Shutdown` does not return under any scheduling of its goroutine: the
goroutine leaves at the 10 second timeout, the caller keeps waiting on the counter, the buffer
is not closed, and no later sequence of `acquire` and `relinquish` calls (the relinquish of the
checked-out connection included) changes the counter, which stays at 1. -/
theorem shutdown_waits_forever (sch : DrainSched) (ops : List Op) (out issued : List Nat) :
    lentPool.clients = some { cap := 1, buf := [], closed := false }
      ∧ lentPool.wg = 1 ∧ lentPool.closing = false
      ∧ (Shutdown sch lentPool).1 = .blocked
      ∧ (Shutdown sch lentPool).2.now = lentPool.now + 10 * Second
      ∧ (Shutdown sch lentPool).2.clients = some { cap := 1, buf := [], closed := false }
      ∧ (run { pool := (Shutdown sch lentPool).2, out := out, issued := issued } ops).pool.wg
          = 1 := by
  have hcl : (Shutdown sch lentPool).2.closing = true := Shutdown_closing sch lentPool
  have hwg : (Shutdown sch lentPool).2.wg = 1 := by cases sch <;> decide
  refine ⟨by decide, by decide, by decide, ?_, ?_, ?_, ?_⟩
  · cases sch <;> decide
  · cases sch <;> decide
  · cases sch <;> decide
  · rw [(run_closing ops { pool := (Shutdown sch lentPool).2, out := out, issued := issued }
      hcl).2.1]
    exact hwg

/-! ## Acquire -/

/-- C3, evaluated: on the initialised, open pool of count 1 whose buffered wrapper has no
underlying client, `acquire` panics with a nil dereference when it evaluates
`client.IsClosing()`; it makes no call to the inner factory and returns no replacement. -/
theorem acquire_nil_client_panics (fuel : Nat) (sch : Sched) :
    nilPool.closing = false ∧ (capClients nilPool : Int) = nilPool.count
      ∧ nilPool.clients = some { cap := 1, buf := [{ ptr := 0, Client := none }], closed := false }
      ∧ (acquire fuel sch none nilPool).1 = .panic .nilDereference
      ∧ (acquire fuel sch none nilPool).2.calls = nilPool.calls := by
  refine ⟨by decide, by decide, by decide, ?_, ?_⟩ <;> rfl

theorem new_fails (f : LDAPClientPooledFactory)
    (hfail : ∀ n, f.calls ≤ n → ∃ e, f.factory n = .error e)
    (hlen : lenClients f < capClients f) :
    ∃ e, new f = (.error e, { f with calls := f.calls + 1, now := f.now + f.dial }) := by
  have hcap : ¬ capClients f ≤ lenClients f := by omega
  obtain ⟨e, he⟩ := hfail f.calls (le_refl _)
  exact ⟨.external e, by simp [new, hcap, he]⟩

theorem replaceLoop_fails (m : Nat) : ∀ (d : Int) (f : LDAPClientPooledFactory),
    0 < max f.sleep 0 + f.dial → (∀ n, f.calls ≤ n → ∃ e, f.factory n = .error e) →
    lenClients f < capClients f →
    d - f.now ≤ (m : Int) * (max f.sleep 0 + f.dial) →
    ∃ f1, replaceLoop (m + 1) d f = (.ret (.error .deadlineExceeded), f1)
      ∧ d ≤ f1.now
      ∧ (f.now < d + (max f.sleep 0 + f.dial) → f1.now < d + (max f.sleep 0 + f.dial)) := by
  induction m with
  | zero =>
    intro d f _ _ _ h
    have hd : d ≤ f.now := by simp at h; omega
    exact ⟨f, by simp [replaceLoop, hd], hd, fun h => h⟩
  | succ m ih =>
    intro d f hs hfail hlen h
    by_cases hd : d ≤ f.now
    · exact ⟨f, by simp [replaceLoop, hd], hd, fun h => h⟩
    · obtain ⟨e, hnew⟩ := new_fails f hfail hlen
      have hmul : ((m + 1 : Nat) : Int) * (max f.sleep 0 + f.dial)
          = (m : Int) * (max f.sleep 0 + f.dial) + (max f.sleep 0 + f.dial) := by
        push_cast; ring
      obtain ⟨f2, hloop, h5, h6⟩ := ih d
        { f with calls := f.calls + 1, now := f.now + f.dial + max f.sleep 0 }
        hs
        (by
          intro n hn
          exact hfail n (le_trans (Nat.le_succ _) hn))
        (by simpa [lenClients, capClients] using hlen)
        (by
          simp only
          rw [hmul] at h
          omega)
      refine ⟨f2, ?_, h5, ?_⟩
      · rw [replaceLoop]
        simp only [hd, if_false, hnew]
        exact hloop
      · intro _
        simp only at h6
        apply h6
        omega

theorem replaceLoop_deadline (fuel : Nat) (d : Int) (f : LDAPClientPooledFactory)
    (hs : 0 < max f.sleep 0 + f.dial)
    (hfail : ∀ n, f.calls ≤ n → ∃ e, f.factory n = .error e)
    (hlen : lenClients f < capClients f)
    (hfuel : d - f.now < fuel) (hnow : f.now < d) :
    ∃ f1, replaceLoop fuel d f = (.ret (.error .deadlineExceeded), f1)
      ∧ d ≤ f1.now ∧ f1.now < d + (max f.sleep 0 + f.dial) := by
  obtain ⟨m, rfl⟩ : ∃ m, fuel = m + 1 := ⟨fuel - 1, by omega⟩
  have hm : d - f.now ≤ (m : Int) * (max f.sleep 0 + f.dial) := by
    have h1 : (m : Int) ≤ (m : Int) * (max f.sleep 0 + f.dial) := by nlinarith
    push_cast at hfuel
    omega
  obtain ⟨f1, h1, h2, h3⟩ := replaceLoop_fails m d f hs hfail hlen hm
  exact ⟨f1, h1, h2, h3 (by omega)⟩

theorem afterReceive_dead (fuel : Nat) (d : Int) (f : LDAPClientPooledFactory)
    (c : LDAPClientPooled) (cl : LDAPClient) (n : Nat)
    (hc : c.Client = some cl) (hdead : cl.isClosing = true) (hwg : f.wg = n + 1) :
    afterReceive fuel d f (some c) = replaceLoop fuel d { f with wg := n } := by
  simp [afterReceive, hc, hdead, hwg]

/-- C10, amended: take a clock that waiting on the buffer and sleeping advance and on which
one call of the inner factory takes `dial >= 0` (`dial = 0` is the clock of the claim), and an
initialised pool that is not closing, with timeout `D > 0`, whose inner factory fails at every
call from now on and on which one round of the replacement loop takes time
(`sleep + dial > 0`, a sleep that is not positive taking none). Then `acquire` ends with the
deadline error and never returns a connection. When the buffer stays empty it returns exactly
`D` after the call. When the buffer yields a dead connection (`IsClosing()` is true) before
the deadline, either handed over while the call waits or at the head of the buffer at the
call, and the wait-group counter is positive, it returns no earlier than `D` and strictly
less than `D + sleep + dial` after the call: the deadline is looked at only between rounds,
and neither the factory call nor the sleep is cut short. (Unrolling the loop more than `D`
times is enough.) -/
theorem acquire_deadline (f : LDAPClientPooledFactory) (ch : Chan) (pick : Bool)
    (hopen : f.closing = false) (hinit : (capClients f : Int) = f.count)
    (hch : f.clients = some ch) (hwf : wellFormed f = true)
    (hD : 0 < f.timeout) (hround : 0 < max f.sleep 0 + f.dial)
    (hfail : ∀ n, f.calls ≤ n → ∃ e, f.factory n = .error e) :
    (ch.buf = [] → ∀ fuel,
        acquire fuel { arrival := none, pickDone := pick } none f
          = (.ret (.error .deadlineExceeded), { f with now := f.now + f.timeout }))
      ∧ (ch.buf = [] → ∀ (fuel t : Nat) (c : LDAPClientPooled) (cl : LDAPClient),
          (t : Int) < f.timeout → c.Client = some cl → cl.isClosing = true → 0 < f.wg →
          f.timeout < fuel →
          ∃ f1, acquire fuel { arrival := some (t, c), pickDone := pick } none f
              = (.ret (.error .deadlineExceeded), f1)
            ∧ f.now + f.timeout ≤ f1.now
            ∧ f1.now < f.now + f.timeout + (max f.sleep 0 + f.dial))
      ∧ (∀ (fuel : Nat) (sch : Sched) (c : LDAPClientPooled) (rest : List LDAPClientPooled)
          (cl : LDAPClient),
          ch.buf = c :: rest → c.Client = some cl → cl.isClosing = true → 0 < f.wg →
          f.timeout < fuel →
          ∃ f1, acquire fuel sch none f = (.ret (.error .deadlineExceeded), f1)
            ∧ f.now + f.timeout ≤ f1.now
            ∧ f1.now < f.now + f.timeout + (max f.sleep 0 + f.dial)) := by
  have hwf2 := hwf
  simp only [wellFormed, hch, hopen, Bool.and_eq_true, decide_eq_true_eq, Bool.or_false,
    Bool.not_eq_true'] at hwf2
  have hnc : ch.closed = false := hwf2.2
  have hnd : ¬ f.now + f.timeout ≤ f.now := by omega
  have hacq : ∀ fuel sch, acquire fuel sch none f
      = selectClients fuel sch (f.now + f.timeout) f := by
    intro fuel sch
    simp [acquire, hopen, hinit]
  refine ⟨?_, ?_, ?_⟩
  · intro hbuf fuel
    rw [hacq]
    simp [selectClients, hch, hbuf, hnc, hnd]
  · intro hbuf fuel t c cl ht hc hdead hwg hfuel
    by_cases hcap : 0 < ch.cap
    swap
    · refine ⟨{ f with now := f.now + f.timeout }, ?_, le_refl _, by simp only; omega⟩
      rw [hacq]
      simp [selectClients, hch, hbuf, hnc, hnd, hcap]
    obtain ⟨n, hn⟩ : ∃ n, f.wg = n + 1 := ⟨f.wg - 1, by omega⟩
    have hlt : f.now + (t : Int) < f.now + f.timeout := by omega
    obtain ⟨f1, h1, h2, h3⟩ := replaceLoop_deadline fuel (f.now + f.timeout)
      { f with clients := some ch, now := f.now + t, wg := n } hround hfail
      (by simp only [lenClients, capClients, hbuf, List.length_nil]; exact hcap)
      (by simp only; omega) (by simp only; omega)
    refine ⟨f1, ?_, h2, by simp only at h3; omega⟩
    rw [hacq]
    simp only [selectClients, hch, hbuf, hnc, hnd, hcap, hlt, if_false, true_and, true_or,
      if_true, Bool.false_eq_true]
    exact (afterReceive_dead fuel _ { f with clients := some ch, now := f.now + t } c cl n
      hc hdead hn).trans h1
  · intro fuel sch c rest cl hbuf hc hdead hwg hfuel
    obtain ⟨n, hn⟩ : ∃ n, f.wg = n + 1 := ⟨f.wg - 1, by omega⟩
    have hrest : rest.length < ch.cap := by
      have := hwf2.1
      rw [hbuf] at this
      simp only [List.length_cons] at this
      omega
    obtain ⟨f1, h1, h2, h3⟩ := replaceLoop_deadline fuel (f.now + f.timeout)
      { f with clients := some { ch with buf := rest }, wg := n } hround hfail
      (by simp only [lenClients, capClients]; exact hrest)
      (by simp only; omega) (by simp only; omega)
    refine ⟨f1, ?_, h2, by simp only at h3; omega⟩
    rw [hacq]
    simp only [selectClients, hch, hbuf, hnd, false_and, if_false]
    exact (afterReceive_dead fuel _ { f with clients := some { ch with buf := rest } } c cl n
      hc hdead hn).trans h1

theorem strandedPool_fails (n : Nat) (hn : strandedPool.calls ≤ n) :
    ∃ e, strandedPool.factory n = .error e := by
  have hc : strandedPool.calls = 1 := by decide
  have hf : strandedPool.factory = (okThenFail 1).factory := rfl
  refine ⟨1, ?_⟩
  simp only [hf, okThenFail]
  rw [if_neg (by omega)]

/-- Witness of C10, amended: the pool of count 1 whose connection is checked out and whose
inner factory fails from now on, first with its buffer staying empty, then with the dead
connection handed back 1 s into the wait. -/
theorem acquire_deadline_witness :
    strandedPool.closing = false ∧ 0 < strandedPool.timeout
      ∧ 0 < max strandedPool.sleep 0 + strandedPool.dial ∧ 0 < strandedPool.wg
      ∧ acquire 5 { arrival := none, pickDone := false } none strandedPool
          = (.ret (.error .deadlineExceeded),
             { strandedPool with now := strandedPool.now + strandedPool.timeout })
      ∧ ∃ f1, acquire 10000000001
            { arrival := some (1000000000, deadConn 0), pickDone := false } none strandedPool
          = (.ret (.error .deadlineExceeded), f1)
        ∧ strandedPool.now + strandedPool.timeout ≤ f1.now
        ∧ f1.now < strandedPool.now + strandedPool.timeout
            + (max strandedPool.sleep 0 + strandedPool.dial) :=
  ⟨by decide, by decide, by decide, by decide,
   (acquire_deadline strandedPool { cap := 1, buf := [], closed := false } false
      (by decide) (by decide) rfl (by decide) (by decide) (by decide)
      strandedPool_fails).1 rfl 5,
   (acquire_deadline strandedPool { cap := 1, buf := [], closed := false } false
      (by decide) (by decide) rfl (by decide) (by decide) (by decide)
      strandedPool_fails).2.1 rfl 10000000001 1000000000 (deadConn 0)
      { id := 0, isClosing := true, closeErr := none }
      (by decide) rfl rfl (by decide) (by decide)⟩

/-- C10, as stated, fails, in two ways. First, on the pool of count 1 with timeout 10 s and
sleep 5 s, initialised and not closing, whose buffer is empty and whose inner factory fails at
every call from now on, the checked-out connection, now dead, is handed back 1 s into the
wait: `acquire` tries the factory at 1 s and at 6 s, sleeps 5 s after each failure, and
returns the deadline error 11 s after it was called, later than the 10 s of the timeout.
Second, on the initialised open pool `drainedPool`, whose buffer holds a dead connection while
the wait-group counter is 0, `acquire` does not end with a deadline error: `wg.Done()` panics
on the negative counter. -/
theorem acquire_overshoots_after_handover :
    strandedPool.closing = false ∧ (capClients strandedPool : Int) = strandedPool.count
      ∧ strandedPool.clients = some { cap := 1, buf := [], closed := false }
      ∧ strandedPool.factory = (okThenFail 1).factory ∧ strandedPool.calls = 1
      ∧ strandedPool.timeout = 10 * Second ∧ strandedPool.sleep = 5 * Second
      ∧ strandedPool.now = 0
      ∧ (acquire 3 { arrival := some (1000000000, deadConn 0), pickDone := false } none
          strandedPool).1 = .ret (.error .deadlineExceeded)
      ∧ (acquire 3 { arrival := some (1000000000, deadConn 0), pickDone := false } none
          strandedPool).2.now = 11 * Second
      ∧ ¬ ((acquire 3 { arrival := some (1000000000, deadConn 0), pickDone := false } none
          strandedPool).2.now ≤ strandedPool.now + strandedPool.timeout)
      ∧ drainedPool.closing = false ∧ (capClients drainedPool : Int) = drainedPool.count
      ∧ drainedPool.clients = some { cap := 2, buf := [deadConn 0], closed := false }
      ∧ drainedPool.factory = (okThenFail 1).factory ∧ drainedPool.calls = 4
      ∧ drainedPool.wg = 0
      ∧ (acquire 3 quiet none drainedPool).1 = .panic .negativeWaitGroup := by
  refine ⟨by decide, by decide, by decide, rfl, by decide, by decide, by decide, by decide,
    rfl, by decide, by decide, by decide, by decide, by decide, rfl, by decide, by decide,
    rfl⟩

/-- The overshoot of C10 on a clock on which a call of the inner factory takes 1 ms: the dead
connection received 1 s into the wait, attempts at 1 s and 6.001 s, the deadline error
returned at 11.002 s. -/
theorem acquire_overshoots_with_dial_cost :
    slowStrandedPool.clients = some { cap := 1, buf := [], closed := false }
      ∧ slowStrandedPool.timeout = 10 * Second ∧ slowStrandedPool.sleep = 5 * Second
      ∧ slowStrandedPool.dial = 1000000
      ∧ (acquire 3 { arrival := some (1000000000, deadConn 0), pickDone := false } none
          slowStrandedPool).1 = .ret (.error .deadlineExceeded)
      ∧ (acquire 3 { arrival := some (1000000000, deadConn 0), pickDone := false } none
          slowStrandedPool).2.now
        = slowStrandedPool.now + 11 * Second + 2000000 := by
  refine ⟨by decide, by decide, by decide, by decide, rfl, by decide⟩

/-! ## The capacity invariant -/

theorem replaceLoop_frame (fuel : Nat) : ∀ (d : Int) (f : LDAPClientPooledFactory),
    (replaceLoop fuel d f).2.clients = f.clients ∧ (replaceLoop fuel d f).2.count = f.count
      ∧ (replaceLoop fuel d f).2.closing = f.closing := by
  induction fuel with
  | zero => intro d f; simp [replaceLoop]
  | succ k ih =>
    intro d f
    rw [replaceLoop]
    split_ifs
    · simp
    · have hn := new_frame f
      cases hnew : new f with
      | mk r f1 =>
        rw [hnew] at hn
        cases r with
        | error e =>
          simp only
          obtain ⟨h1, h2, h3⟩ := ih d { f1 with now := f1.now + max f1.sleep 0 }
          exact ⟨h1.trans hn.1, h2.trans hn.2.2.1, h3.trans hn.2.1⟩
        | ok c => exact ⟨hn.1, hn.2.2.1, hn.2.1⟩

theorem afterReceive_frame (fuel : Nat) (d : Int) (f : LDAPClientPooledFactory)
    (c : Option LDAPClientPooled) :
    (afterReceive fuel d f c).2.clients = f.clients ∧ (afterReceive fuel d f c).2.count = f.count
      ∧ (afterReceive fuel d f c).2.closing = f.closing := by
  unfold afterReceive
  cases c with
  | none => simp
  | some c =>
    cases hc : c.Client with
    | none => simp [hc]
    | some cl =>
      simp only [hc]
      split_ifs
      · cases hw : f.wg with
        | zero => simp
        | succ n => exact replaceLoop_frame fuel d { f with wg := n }
      · simp

theorem acquire_buffer (fuel : Nat) (pick : Bool) (f : LDAPClientPooledFactory) (ch : Chan)
    (hch : f.clients = some ch) (hcap : (ch.cap : Int) = f.count) :
    ∃ ch1, (acquire fuel { arrival := none, pickDone := pick } none f).2.clients = some ch1
      ∧ ch1.cap = ch.cap
      ∧ (acquire fuel { arrival := none, pickDone := pick } none f).2.count = f.count
      ∧ ch1.buf.length ≤ ch.buf.length
      ∧ ∀ c, (acquire fuel { arrival := none, pickDone := pick } none f).1 = .ret (.ok c) →
          ch1.buf.length + 1 ≤ ch.buf.length := by
  by_cases hcl : f.closing = true
  · refine ⟨ch, ?_, rfl, ?_, le_refl _, ?_⟩ <;> simp [acquire, hcl, hch]
  · have hinit : (capClients f : Int) = f.count := by simp [capClients, hch, hcap]
    have hacq : acquire fuel { arrival := none, pickDone := pick } none f
        = selectClients fuel { arrival := none, pickDone := pick } (f.now + f.timeout) f := by
      simp [acquire, hcl, hinit]
    rw [hacq]
    unfold selectClients
    simp only [hch]
    cases hb : ch.buf with
    | nil =>
      simp only
      split_ifs
      · exact ⟨ch, hch, rfl, rfl, by simp [hb], by simp⟩
      · exact ⟨ch, by simp [afterReceive, hch], rfl, by simp [afterReceive], by simp [hb],
          by simp [afterReceive]⟩
      · exact ⟨ch, hch, rfl, rfl, by simp [hb], by simp⟩
      · exact ⟨ch, rfl, rfl, rfl, by simp [hb], by simp⟩
    | cons c rest =>
      simp only
      split_ifs
      · exact ⟨ch, hch, rfl, rfl, by simp [hb], by simp⟩
      · obtain ⟨h1, h2, _⟩ := afterReceive_frame fuel (f.now + f.timeout)
          { f with clients := some { ch with buf := rest } } (some c)
        exact ⟨{ ch with buf := rest }, h1, rfl, h2, by simp, by simp⟩

theorem relinquish_buffer (f : LDAPClientPooledFactory) (c : LDAPClientPooled) (ch : Chan)
    (hch : f.clients = some ch) :
    ∃ ch1, (relinquish f c).2.clients = some ch1 ∧ ch1.cap = ch.cap
      ∧ (relinquish f c).2.count = f.count
      ∧ ch1.buf.length ≤ ch.cap ⊔ ch.buf.length
      ∧ ch1.buf.length ≤ ch.buf.length + 1 := by
  have hr := realClose_frame f c
  unfold relinquish
  split_ifs
  · exact ⟨ch, hr.2.2.1.trans hch, rfl, hr.2.1, le_sup_right, Nat.le_succ _⟩
  · exact ⟨ch, hr.2.2.1.trans hch, rfl, hr.2.1, le_sup_right, Nat.le_succ _⟩
  · unfold send
    simp only [hch]
    split_ifs with h1 h2
    · exact ⟨ch, hch, rfl, rfl, le_sup_right, Nat.le_succ _⟩
    · refine ⟨{ ch with buf := ch.buf ++ [c] }, rfl, rfl, rfl, ?_, by simp⟩
      simp only [List.length_append, List.length_singleton]
      exact le_trans (Nat.succ_le_of_lt h2) le_sup_left
    · exact ⟨ch, hch, rfl, rfl, le_sup_right, Nat.le_succ _⟩

theorem step_inv (w : World) (op : Op) (ch : Chan)
    (hch : w.pool.clients = some ch) (hcap : (ch.cap : Int) = w.pool.count)
    (hsum : ch.buf.length + w.out.length ≤ ch.cap)
    (hop : ∀ c, op = .relinquish c → c.ptr ∈ w.out) :
    ∃ ch1, (step w op).pool.clients = some ch1 ∧ (ch1.cap : Int) = (step w op).pool.count
      ∧ (step w op).pool.count = w.pool.count
      ∧ ch1.buf.length + (step w op).out.length ≤ ch1.cap := by
  cases op with
  | acquire fuel pick =>
    obtain ⟨ch1, h1, h2, h3, h4, h5⟩ := acquire_buffer fuel pick w.pool ch hch hcap
    cases hres : acquire fuel { arrival := none, pickDone := pick } none w.pool with
    | mk r p =>
      rw [hres] at h1 h3 h5
      simp only at h1 h3 h5
      cases r with
      | ret a =>
        cases a with
        | ok c =>
          have h6 := h5 c rfl
          refine ⟨ch1, ?_, ?_, ?_, ?_⟩
          · simpa [step, hres] using h1
          · simp only [step, hres]; rw [h3, h2]; exact hcap
          · simpa [step, hres] using h3
          · simp only [step, hres, List.length_cons]; omega
        | error e =>
          refine ⟨ch1, ?_, ?_, ?_, ?_⟩
          · simpa [step, hres] using h1
          · simp only [step, hres]; rw [h3, h2]; exact hcap
          · simpa [step, hres] using h3
          · simp only [step, hres]; omega
      | panic q =>
        refine ⟨ch1, ?_, ?_, ?_, ?_⟩
        · simpa [step, hres] using h1
        · simp only [step, hres]; rw [h3, h2]; exact hcap
        · simpa [step, hres] using h3
        · simp only [step, hres]; omega
      | blocked =>
        refine ⟨ch1, ?_, ?_, ?_, ?_⟩
        · simpa [step, hres] using h1
        · simp only [step, hres]; rw [h3, h2]; exact hcap
        · simpa [step, hres] using h3
        · simp only [step, hres]; omega
      | spin =>
        refine ⟨ch1, ?_, ?_, ?_, ?_⟩
        · simpa [step, hres] using h1
        · simp only [step, hres]; rw [h3, h2]; exact hcap
        · simpa [step, hres] using h3
        · simp only [step, hres]; omega
  | relinquish c =>
    obtain ⟨ch1, h1, h2, h3, h4, h5⟩ := relinquish_buffer w.pool c ch hch
    have hmem : c.ptr ∈ w.out := hop c rfl
    have hlen : (w.out.erase c.ptr).length = w.out.length - 1 := List.length_erase_of_mem hmem
    have hpos : 0 < w.out.length := List.length_pos_of_mem hmem
    refine ⟨ch1, h1, ?_, h3, ?_⟩
    · show (ch1.cap : Int) = (relinquish w.pool c).2.count
      rw [h3, h2]; exact hcap
    · show ch1.buf.length + (w.out.erase c.ptr).length ≤ ch1.cap
      rw [hlen, h2]
      omega

theorem run_inv (ops : List Op) : ∀ (w : World) (ch : Chan),
    w.pool.clients = some ch → (ch.cap : Int) = w.pool.count →
    ch.buf.length + w.out.length ≤ ch.cap → checkedOutOnly w ops = true →
    ∃ ch1, (run w ops).pool.clients = some ch1 ∧ (ch1.cap : Int) = (run w ops).pool.count
      ∧ (run w ops).pool.count = w.pool.count
      ∧ ch1.buf.length + (run w ops).out.length ≤ ch1.cap := by
  induction ops with
  | nil => intro w ch hch hcap hsum _; exact ⟨ch, hch, hcap, rfl, hsum⟩
  | cons op ops ih =>
    intro w ch hch hcap hsum hok
    have hop : ∀ c, op = .relinquish c → c.ptr ∈ w.out := by
      intro c hc
      subst hc
      simp only [checkedOutOnly, Bool.and_eq_true, decide_eq_true_eq] at hok
      exact hok.1
    have hrest : checkedOutOnly (step w op) ops = true := by
      cases op with
      | acquire fuel pick => simpa [checkedOutOnly] using hok
      | relinquish c =>
        simp only [checkedOutOnly, Bool.and_eq_true, decide_eq_true_eq] at hok
        exact hok.2
    obtain ⟨ch1, h1, h2, h3, h4⟩ := step_inv w op ch hch hcap hsum hop
    obtain ⟨ch2, h5, h6, h7, h8⟩ := ih (step w op) ch1 h1 h2 h4 hrest
    exact ⟨ch2, h5, h6, h7.trans h3, h8⟩

theorem Initialize_buffer (f : LDAPClientPooledFactory) (hcount : 1 ≤ f.count)
    (hlimit : f.count ≤ f.chanLimit) :
    ∃ buf : List LDAPClientPooled,
      (Initialize f).2.clients = some { cap := f.count.toNat, buf := buf, closed := false }
        ∧ buf.length ≤ f.count.toNat ∧ (Initialize f).2.count = f.count
        ∧ (Initialize f).2.wg = f.wg + buf.length := by
  obtain ⟨news, h1, h2, _⟩ := initLoop_spec f.count.toNat 0
    { f with clients := some { cap := f.count.toNat, buf := [], closed := false } }
    { cap := f.count.toNat, buf := [], closed := false } rfl rfl (by simp)
  dsimp only at h1
  have hneg : ¬ (f.count < 0 ∨ (f.chanLimit : Int) < f.count) := by omega
  refine ⟨news, ?_, h2, ?_, ?_⟩
  · simp only [Initialize, hneg, if_false, h1]
    split_ifs <;> simp
  · simp only [Initialize, hneg, if_false, h1]
    split_ifs <;> rfl
  · simp only [Initialize, hneg, if_false, h1]
    split_ifs <;> rfl

theorem Initialize_panics (f : LDAPClientPooledFactory) (h : (f.chanLimit : Int) < f.count) :
    Initialize f = (.panic .makeChanSize, f) := by
  simp [Initialize, h]

theorem acquire_uninitialised (fuel : Nat) (sch : Sched) (parent : Option Int)
    (f : LDAPClientPooledFactory) (hch : f.clients = none)
    (h : (f.chanLimit : Int) < f.count) :
    (acquire fuel sch parent f).2 = f
      ∧ ∀ c, (acquire fuel sch parent f).1 ≠ .ret (.ok c) := by
  have hne : (capClients f : Int) ≠ f.count := by
    simp only [capClients, hch]
    have : (0 : Int) ≤ (f.chanLimit : Int) := Int.ofNat_nonneg _
    intro h0
    simp only [Nat.cast_zero] at h0
    omega
  unfold acquire
  split_ifs
  · exact ⟨rfl, fun c hc => by cases hc⟩
  · rw [Initialize_panics f h]
    exact ⟨rfl, fun c hc => by cases hc⟩

theorem run_uninitialised (ops : List Op) : ∀ (w : World), w.pool.clients = none →
    (w.pool.chanLimit : Int) < w.pool.count → w.out = [] → checkedOutOnly w ops = true →
    (run w ops).pool = w.pool ∧ (run w ops).out = [] := by
  induction ops with
  | nil => intro w _ _ hout _; exact ⟨rfl, hout⟩
  | cons op ops ih =>
    intro w hch hlim hout hok
    cases op with
    | acquire fuel pick =>
      obtain ⟨h1, h2⟩ := acquire_uninitialised fuel { arrival := none, pickDone := pick } none
        w.pool hch hlim
      have hstep : step w (.acquire fuel pick) = w := by
        cases hres : acquire fuel { arrival := none, pickDone := pick } none w.pool with
        | mk r p =>
          rw [hres] at h1 h2
          simp only at h1
          subst h1
          cases r with
          | ret a =>
            cases a with
            | ok c => exact absurd rfl (h2 c)
            | error e => simp [step, hres]
          | panic q => simp [step, hres]
          | blocked => simp [step, hres]
          | spin => simp [step, hres]
      have hok2 : checkedOutOnly (step w (.acquire fuel pick)) ops = true := by
        simpa [checkedOutOnly] using hok
      rw [hstep] at hok2
      have := ih w hch hlim hout hok2
      simpa [run, hstep] using this
    | relinquish c =>
      simp only [checkedOutOnly, Bool.and_eq_true, decide_eq_true_eq, hout,
        List.not_mem_nil, false_and] at hok

/-- C1, amended: for a pool built by the constructor and then initialised, after every finite
sequence of atomic `acquire` and `relinquish` operations in which each `relinquish` is given a
connection that is checked out at that moment (returned by an earlier `acquire` and not
relinquished since), the number of connections in the buffer plus the number of connections
checked out is at most count, the count fixed by the constructor. -/
theorem capacity_invariant (env : Env)
    (count retries timeout : Int) (ops : List Op)
    (h : checkedOutOnly (initialised env count retries timeout) ops = true) :
    (lenClients (run (initialised env count retries timeout) ops).pool : Int)
        + ((run (initialised env count retries timeout) ops).out.length : Int)
        ≤ (run (initialised env count retries timeout) ops).pool.count
      ∧ (run (initialised env count retries timeout) ops).pool.count
        = (if 1 ≤ count then count else 5) := by
  have hc : (NewLDAPConnectionFactoryPooled env count retries timeout).count
      = (if 1 ≤ count then count else 5) := by
    simp only [NewLDAPConnectionFactoryPooled]
    split_ifs <;> first | rfl | omega
  have hc1 : 1 ≤ (NewLDAPConnectionFactoryPooled env count retries timeout).count := by
    rw [hc]; split_ifs <;> omega
  by_cases hlim : (NewLDAPConnectionFactoryPooled env count retries timeout).count
      ≤ (NewLDAPConnectionFactoryPooled env count retries timeout).chanLimit
  · obtain ⟨buf, h1, h2, h3, _⟩ :=
      Initialize_buffer (NewLDAPConnectionFactoryPooled env count retries timeout) hc1 hlim
    obtain ⟨ch1, h5, h6, h7, h8⟩ := run_inv ops (initialised env count retries timeout)
      { cap := (NewLDAPConnectionFactoryPooled env count retries timeout).count.toNat,
        buf := buf, closed := false }
      h1
      (by
        have h4 : (initialised env count retries timeout).pool.count
            = (NewLDAPConnectionFactoryPooled env count retries timeout).count := h3
        rw [h4]
        simp only
        omega)
      (by
        show buf.length + 0
          ≤ (NewLDAPConnectionFactoryPooled env count retries timeout).count.toNat
        omega) h
    refine ⟨?_, ?_⟩
    · rw [← h6]
      simp only [lenClients, h5]
      omega
    · rw [h7]
      show (Initialize _).2.count = _
      rw [h3, hc]
  · have hpanic := Initialize_panics
      (NewLDAPConnectionFactoryPooled env count retries timeout) (by omega)
    have hpool : (initialised env count retries timeout).pool
        = NewLDAPConnectionFactoryPooled env count retries timeout := by
      show (Initialize _).2 = _
      rw [hpanic]
    obtain ⟨h1, h2⟩ := run_uninitialised ops (initialised env count retries timeout)
      (by rw [hpool]; rfl) (by rw [hpool]; omega) rfl h
    rw [h1, h2, hpool]
    refine ⟨?_, hc⟩
    have : lenClients (NewLDAPConnectionFactoryPooled env count retries timeout) = 0 := rfl
    rw [this]
    simp only [List.length_nil, Nat.cast_zero, add_zero]
    omega

/-- Witness of C1, amended: on the pool of count 2, acquire, hand the connection back, and
acquire again. -/
theorem capacity_invariant_witness :
    checkedOutOnly (initialised alwaysOk 2 2 0)
        [.acquire 1 false, .relinquish (liveConn 0), .acquire 1 false] = true
      ∧ (lenClients (run (initialised alwaysOk 2 2 0)
            [.acquire 1 false, .relinquish (liveConn 0), .acquire 1 false]).pool : Int)
          + ((run (initialised alwaysOk 2 2 0)
            [.acquire 1 false, .relinquish (liveConn 0), .acquire 1 false]).out.length : Int)
          ≤ (run (initialised alwaysOk 2 2 0)
            [.acquire 1 false, .relinquish (liveConn 0), .acquire 1 false]).pool.count :=
  ⟨by decide, (capacity_invariant alwaysOk 2 2 0
    [.acquire 1 false, .relinquish (liveConn 0), .acquire 1 false] (by decide)).1⟩

/-- C1, as stated, fails: on the pool of count 2, the wrapper returned by the first `acquire`
dies and is relinquished, and is relinquished once more after the second `acquire`; each
`relinquish` is given a wrapper that an earlier `acquire` returned. The buffer then holds that
dead wrapper twice, and each of the next two `acquire` calls replaces it by a fresh connection.
The buffer ends empty with 3 distinct connections checked out, none of them relinquished since
it was returned: more than the count of 2. -/
theorem capacity_exceeded_by_second_relinquish :
    returnedEarlier (initialised alwaysOk 2 2 0)
        [.acquire 1 false, .relinquish (deadConn 0), .acquire 1 false,
         .relinquish (deadConn 0), .acquire 1 false, .acquire 1 false] = true
      ∧ (run (initialised alwaysOk 2 2 0)
          [.acquire 1 false, .relinquish (deadConn 0), .acquire 1 false,
           .relinquish (deadConn 0), .acquire 1 false, .acquire 1 false]).pool.count = 2
      ∧ (run (initialised alwaysOk 2 2 0)
          [.acquire 1 false, .relinquish (deadConn 0), .acquire 1 false,
           .relinquish (deadConn 0), .acquire 1 false, .acquire 1 false]).pool.clients
          = some { cap := 2, buf := [], closed := false }
      ∧ (run (initialised alwaysOk 2 2 0)
          [.acquire 1 false, .relinquish (deadConn 0), .acquire 1 false,
           .relinquish (deadConn 0), .acquire 1 false, .acquire 1 false]).out = [3, 2, 1]
      ∧ ¬ ((lenClients (run (initialised alwaysOk 2 2 0)
            [.acquire 1 false, .relinquish (deadConn 0), .acquire 1 false,
             .relinquish (deadConn 0), .acquire 1 false, .acquire 1 false]).pool : Int)
          + ((run (initialised alwaysOk 2 2 0)
            [.acquire 1 false, .relinquish (deadConn 0), .acquire 1 false,
             .relinquish (deadConn 0), .acquire 1 false, .acquire 1 false]).out.length : Int)
          ≤ (run (initialised alwaysOk 2 2 0)
            [.acquire 1 false, .relinquish (deadConn 0), .acquire 1 false,
             .relinquish (deadConn 0), .acquire 1 false, .acquire 1 false]).pool.count) := by
  decide

/-! ## The fast path and the replacement of a dead connection -/

/-- On an initialised open pool whose deadline has not passed, `acquire` returns the wrapper at
the head of the buffer when its underlying client is present and not closing; the rest of the
state, the number of calls to the inner factory included, is as before. -/
theorem acquire_live_returns_head (f : LDAPClientPooledFactory) (ch : Chan)
    (c : LDAPClientPooled) (rest : List LDAPClientPooled) (cl : LDAPClient)
    (fuel : Nat) (sch : Sched)
    (hopen : f.closing = false) (hinit : (capClients f : Int) = f.count)
    (hch : f.clients = some ch) (hbuf : ch.buf = c :: rest)
    (hc : c.Client = some cl) (hlive : cl.isClosing = false) (hD : 0 < f.timeout) :
    acquire fuel sch none f
      = (.ret (.ok c), { f with clients := some { ch with buf := rest } }) := by
  have hnd : ¬ f.now + f.timeout ≤ f.now := by omega
  simp [acquire, hopen, hinit, selectClients, hch, hbuf, hnd, afterReceive, hc, hlive]

theorem replaceLoop_succeeds (k : Nat) : ∀ (fuel : Nat) (d : Int) (f : LDAPClientPooledFactory)
    (client : Option LDAPClient),
    lenClients f < capClients f →
    (∀ i, i < k → ∃ e, f.factory (f.calls + i) = .error e) →
    f.factory (f.calls + k) = .ok client →
    f.now + (k : Int) * (max f.sleep 0 + f.dial) < d → k < fuel →
    replaceLoop fuel d f
      = (.ret (.ok { ptr := f.nextPtr, Client := client }),
         { f with calls := f.calls + k + 1, wg := f.wg + 1, nextPtr := f.nextPtr + 1,
                  now := f.now + (k : Int) * (max f.sleep 0 + f.dial) + f.dial }) := by
  induction k with
  | zero =>
    intro fuel d f client hlen _ hok hd hfuel
    obtain ⟨m, rfl⟩ : ∃ m, fuel = m + 1 := ⟨fuel - 1, by omega⟩
    have hnd : ¬ d ≤ f.now := by simp at hd; omega
    have hcap : ¬ capClients f ≤ lenClients f := by omega
    simp only [Nat.add_zero] at hok
    simp [replaceLoop, hnd, new, hcap, hok]
  | succ k ih =>
    intro fuel d f client hlen hfail hok hd hfuel
    obtain ⟨m, rfl⟩ : ∃ m, fuel = m + 1 := ⟨fuel - 1, by omega⟩
    have hmax : 0 ≤ max f.sleep 0 := le_max_right _ _
    have hdial : (0 : Int) ≤ (f.dial : Int) := Int.ofNat_nonneg _
    have hmul : ((k + 1 : Nat) : Int) * (max f.sleep 0 + f.dial)
        = (k : Int) * (max f.sleep 0 + f.dial) + (max f.sleep 0 + f.dial) := by
      push_cast; ring
    have hk0 : 0 ≤ (k : Int) * (max f.sleep 0 + f.dial) := by positivity
    have hnd : ¬ d ≤ f.now := by rw [hmul] at hd; omega
    have hcap : ¬ capClients f ≤ lenClients f := by omega
    obtain ⟨e, he⟩ := hfail 0 (Nat.succ_pos k)
    simp only [Nat.add_zero] at he
    have hstep := ih m d
      { f with calls := f.calls + 1, now := f.now + f.dial + max f.sleep 0 } client
      (by simpa [lenClients, capClients] using hlen)
      (by
        intro i hi
        have := hfail (i + 1) (by omega)
        simpa [Nat.add_assoc, Nat.add_comm 1 i] using this)
      (by simpa [Nat.add_assoc, Nat.add_comm 1 k] using hok)
      (by simp only; rw [hmul] at hd; omega)
      (by omega)
    have hnow : f.now + (f.dial : Int) + max f.sleep 0 + (k : Int) * (max f.sleep 0 + f.dial)
          + f.dial
        = f.now + ((k + 1 : Nat) : Int) * (max f.sleep 0 + f.dial) + f.dial := by
      rw [hmul]; ring
    rw [replaceLoop]
    simp only [hnd, if_false, new, hcap, he]
    rw [hstep]
    simp only [hnow]
    simp [Nat.add_assoc, Nat.add_comm 1 k]

/-- On an initialised open pool whose buffer head has an underlying client that is closing,
`acquire` drops that wrapper and calls the inner factory until a call succeeds, sleeping after
each failed call; when the first `k` calls fail, the next one succeeds and the deadline has not
passed after `k` rounds, it returns a fresh wrapper around the client of that call, having made
`k + 1` calls and slept `k` times. -/
theorem acquire_dead_is_replaced (f : LDAPClientPooledFactory) (ch : Chan)
    (c : LDAPClientPooled) (rest : List LDAPClientPooled) (cl : LDAPClient)
    (client : Option LDAPClient) (n k fuel : Nat) (sch : Sched)
    (hopen : f.closing = false) (hinit : (capClients f : Int) = f.count)
    (hch : f.clients = some ch) (hbuf : ch.buf = c :: rest) (hwf : wellFormed f = true)
    (hc : c.Client = some cl) (hdead : cl.isClosing = true) (hwg : f.wg = n + 1)
    (hfail : ∀ i, i < k → ∃ e, f.factory (f.calls + i) = .error e)
    (hok : f.factory (f.calls + k) = .ok client)
    (hD : (k : Int) * (max f.sleep 0 + f.dial) < f.timeout) (hfuel : k < fuel) :
    acquire fuel sch none f
      = (.ret (.ok { ptr := f.nextPtr, Client := client }),
         { f with clients := some { ch with buf := rest }, calls := f.calls + k + 1,
                  nextPtr := f.nextPtr + 1,
                  now := f.now + (k : Int) * (max f.sleep 0 + f.dial) + f.dial }) := by
  have hnd : ¬ f.now + f.timeout ≤ f.now := by
    have h0 : 0 ≤ (k : Int) * (max f.sleep 0 + f.dial) := by
      have : 0 ≤ max f.sleep 0 := le_max_right _ _
      positivity
    omega
  have hlen : rest.length < ch.cap := by
    simp only [wellFormed, hch, hbuf, List.length_cons, Bool.and_eq_true,
      decide_eq_true_eq] at hwf
    omega
  have hloop := replaceLoop_succeeds k fuel (f.now + f.timeout)
    { f with clients := some { ch with buf := rest }, wg := n } client
    (by simpa [lenClients, capClients] using hlen) hfail hok (by simp only; omega) hfuel
  have hacq : acquire fuel sch none f
      = selectClients fuel sch (f.now + f.timeout) f := by
    simp [acquire, hopen, hinit]
  rw [hacq]
  simp only [selectClients, hch, hbuf, hnd, false_and, if_false]
  rw [afterReceive_dead fuel _ { f with clients := some { ch with buf := rest } } c cl n
    hc hdead hwg]
  rw [hloop]
  simp [hwg]

/-! ## The representation invariant is kept by every method -/

theorem wellFormed_iff (f : LDAPClientPooledFactory) :
    wellFormed f = true
      ↔ ∀ ch, f.clients = some ch →
          ch.buf.length ≤ ch.cap ∧ (ch.closed = true → f.closing = true) := by
  unfold wellFormed
  cases h : f.clients with
  | none => simp
  | some ch =>
    simp only [Bool.and_eq_true, decide_eq_true_eq, Bool.or_eq_true, Bool.not_eq_true',
      Option.some.injEq, forall_eq']
    constructor
    · rintro ⟨h1, h2⟩
      refine ⟨h1, fun hc => ?_⟩
      rcases h2 with h2 | h2
      · rw [hc] at h2; cases h2
      · exact h2
    · rintro ⟨h1, h2⟩
      refine ⟨h1, ?_⟩
      cases hc : ch.closed with
      | false => exact Or.inl rfl
      | true => exact Or.inr (h2 hc)

theorem wellFormed_congr (f g : LDAPClientPooledFactory) (h1 : g.clients = f.clients)
    (h2 : g.closing = f.closing) (h : wellFormed f = true) : wellFormed g = true := by
  unfold wellFormed at *
  rw [h1, h2]
  exact h

theorem wellFormed_constructor (env : Env)
    (count retries timeout : Int) :
    wellFormed (NewLDAPConnectionFactoryPooled env count retries timeout) = true := rfl

theorem Initialize_wellFormed (f : LDAPClientPooledFactory) (h : wellFormed f = true) :
    wellFormed (Initialize f).2 = true := by
  by_cases hneg : f.count < 0 ∨ (f.chanLimit : Int) < f.count
  · simpa [Initialize, hneg] using h
  · obtain ⟨news, h1, h2, _⟩ := initLoop_spec f.count.toNat 0
      { f with clients := some { cap := f.count.toNat, buf := [], closed := false } }
      { cap := f.count.toNat, buf := [], closed := false } rfl rfl (by simp)
    dsimp only at h1
    simp only [Initialize, hneg, if_false, h1]
    split_ifs <;> simp [wellFormed, h2]

theorem relinquish_wellFormed (f : LDAPClientPooledFactory) (c : LDAPClientPooled)
    (h : wellFormed f = true) : wellFormed (relinquish f c).2 = true := by
  have hr := realClose_frame f c
  unfold relinquish
  split_ifs
  · exact wellFormed_congr f _ hr.2.2.1 hr.1 h
  · exact wellFormed_congr f _ hr.2.2.1 hr.1 h
  · unfold send
    cases hch : f.clients with
    | none => simpa using h
    | some ch =>
      simp only
      split_ifs with h1 h2
      · exact h
      · rw [wellFormed_iff] at h ⊢
        intro ch1 hch1
        simp only [Option.some.injEq] at hch1
        subst hch1
        obtain ⟨h3, h4⟩ := h ch hch
        exact ⟨by simp; omega, h4⟩
      · exact h

theorem selectClients_wellFormed (fuel : Nat) (sch : Sched) (d : Int)
    (f : LDAPClientPooledFactory) (h : wellFormed f = true) :
    wellFormed (selectClients fuel sch d f).2 = true := by
  unfold selectClients
  cases hch : f.clients with
  | none =>
    simp only
    split_ifs
    · exact h
    · exact wellFormed_congr f _ hch.symm rfl h
  | some ch =>
    simp only
    cases hb : ch.buf with
    | nil =>
      simp only
      split_ifs
      · exact h
      · obtain ⟨h1, _, h3⟩ := afterReceive_frame fuel d f none
        exact wellFormed_congr f _ h1 h3 h
      · exact h
      · cases ha : sch.arrival with
        | none => exact wellFormed_congr f _ hch.symm rfl h
        | some v =>
          obtain ⟨t, c⟩ := v
          simp only
          split_ifs
          · obtain ⟨h1, _, h3⟩ := afterReceive_frame fuel d
              { f with clients := some ch, now := f.now + t } (some c)
            exact wellFormed_congr f _ (h1.trans hch.symm) h3 h
          · exact wellFormed_congr f _ hch.symm rfl h
    | cons c rest =>
      simp only
      split_ifs
      · exact h
      · obtain ⟨h1, _, h3⟩ := afterReceive_frame fuel d
          { f with clients := some { ch with buf := rest } } (some c)
        refine wellFormed_congr { f with clients := some { ch with buf := rest } } _ h1 h3 ?_
        rw [wellFormed_iff] at h ⊢
        intro ch1 hch1
        simp only [Option.some.injEq] at hch1
        subst hch1
        obtain ⟨h4, h5⟩ := h ch hch
        rw [hb] at h4
        simp only [List.length_cons] at h4
        exact ⟨by simp only; omega, h5⟩

theorem acquire_wellFormed (fuel : Nat) (sch : Sched) (parent : Option Int)
    (f : LDAPClientPooledFactory) (h : wellFormed f = true) :
    wellFormed (acquire fuel sch parent f).2 = true := by
  unfold acquire
  split_ifs with hcl hinit
  · exact h
  · have hi := Initialize_wellFormed f h
    cases hres : Initialize f with
    | mk r f1 =>
      rw [hres] at hi
      cases r with
      | ret a =>
        cases a with
        | none => exact selectClients_wellFormed _ _ _ f1 hi
        | some e => exact hi
      | panic q => exact hi
      | blocked => exact hi
      | spin => exact hi
  · exact selectClients_wellFormed _ _ _ f h

theorem new_wellFormed (f : LDAPClientPooledFactory) (h : wellFormed f = true) :
    wellFormed (new f).2 = true :=
  wellFormed_congr f _ (new_frame f).1 (new_frame f).2.1 h

theorem GetClient_wellFormed (withOpts : Bool) (fuel : Nat) (sch : Sched)
    (f : LDAPClientPooledFactory) (h : wellFormed f = true) :
    wellFormed (GetClient withOpts fuel sch f).2 = true := by
  unfold GetClient
  cases withOpts with
  | true =>
    simp only [if_true]
    split <;> exact wellFormed_congr f _ rfl rfl h
  | false =>
    have ha := acquire_wellFormed fuel sch none f h
    simp only [Bool.false_eq_true, if_false]
    cases hres : acquire fuel sch none f with
    | mk r f1 =>
      rw [hres] at ha
      cases r with
      | ret a => cases a <;> exact ha
      | panic q => exact ha
      | blocked => exact ha
      | spin => exact ha

theorem run_wellFormed (ops : List Op) : ∀ (w : World), wellFormed w.pool = true →
    wellFormed (run w ops).pool = true := by
  induction ops with
  | nil => intro w h; exact h
  | cons op ops ih =>
    intro w h
    apply ih (step w op)
    cases op with
    | acquire fuel pick =>
      have ha := acquire_wellFormed fuel { arrival := none, pickDone := pick } none w.pool h
      simp only [step]
      cases hres : acquire fuel { arrival := none, pickDone := pick } none w.pool with
      | mk r p =>
        rw [hres] at ha
        cases r with
        | ret a => cases a <;> exact ha
        | panic q => exact ha
        | blocked => exact ha
        | spin => exact ha
    | relinquish c => exact relinquish_wellFormed w.pool c h

theorem closeClients_wellFormed (f : LDAPClientPooledFactory) (hc : f.closing = true)
    (h : wellFormed f = true) : wellFormed (closeClients f).2 = true := by
  unfold closeClients
  cases hch : f.clients with
  | none => simpa using h
  | some ch =>
    simp only
    split_ifs
    · exact h
    · rw [wellFormed_iff] at h ⊢
      intro ch1 hch1
      simp only [Option.some.injEq] at hch1
      subst hch1
      exact ⟨(h ch hch).1, fun _ => hc⟩

theorem recvReady_wellFormed (f f1 : LDAPClientPooledFactory) (c : Option LDAPClientPooled)
    (hr : recvReady f = some (c, f1)) (h : wellFormed f = true) : wellFormed f1 = true := by
  unfold recvReady at hr
  cases hch : f.clients with
  | none => rw [hch] at hr; cases hr
  | some ch =>
    rw [hch] at hr
    simp only at hr
    cases hb : ch.buf with
    | nil =>
      rw [hb] at hr
      simp only at hr
      split_ifs at hr
      cases hr
      exact h
    | cons c0 rest =>
      rw [hb] at hr
      simp only [Option.some.injEq, Prod.mk.injEq] at hr
      obtain ⟨_, rfl⟩ := hr
      rw [wellFormed_iff] at h ⊢
      intro ch1 hch1
      simp only [Option.some.injEq] at hch1
      subst hch1
      obtain ⟨h4, h5⟩ := h ch hch
      rw [hb] at h4
      simp only [List.length_cons] at h4
      exact ⟨by simp only; omega, h5⟩

theorem drainReceived_clients (f : LDAPClientPooledFactory) (c : Option LDAPClientPooled) :
    (drainReceived f c).2.clients = f.clients := by
  unfold drainReceived realClose
  cases c with
  | none => rfl
  | some c =>
    cases hc : c.Client with
    | none => simp [hc]
    | some cl =>
      cases hw : f.wg <;> simp [hc, hw]

theorem drainReceived_wellFormed (f : LDAPClientPooledFactory) (c : Option LDAPClientPooled)
    (h : wellFormed f = true) : wellFormed (drainReceived f c).2 = true :=
  wellFormed_congr f _ (drainReceived_clients f c) (drainReceived_closing f c) h

theorem finishShutdown_wellFormed (f : LDAPClientPooledFactory) (hc : f.closing = true)
    (h : wellFormed f = true) : wellFormed (finishShutdown f).2 = true := by
  have h1 := closeClients_wellFormed f hc h
  unfold finishShutdown
  cases hcc : closeClients f with
  | mk r f1 =>
    rw [hcc] at h1
    cases r <;> exact h1

theorem drainFirst_wellFormed (f : LDAPClientPooledFactory) (hc : f.closing = true)
    (h : wellFormed f = true) : wellFormed (drainFirst f).2 = true := by
  unfold drainFirst
  cases hr : recvReady f with
  | none =>
    simp only
    split_ifs
    · have h1 := closeClients_wellFormed f hc h
      cases hcc : closeClients f with
      | mk r f1 =>
        rw [hcc] at h1
        cases r with
        | ret a =>
          simp only
          have h2 := drainReceived_wellFormed f1 none h1
          cases hd : drainReceived f1 none with
          | mk r2 f2 =>
            rw [hd] at h2
            cases r2 <;> exact h2
        | panic q => exact h1
        | blocked => exact h1
        | spin => exact h1
    · exact wellFormed_congr f _ rfl rfl h
  | some v =>
    obtain ⟨c, f1⟩ := v
    have h0 := recvReady_wellFormed f f1 c hr h
    have hc1 : f1.closing = true := (recvReady_closing f f1 c hr).trans hc
    have h2 := drainReceived_wellFormed f1 c h0
    have hc2 := (drainReceived_closing f1 c).trans hc1
    simp only
    cases hd : drainReceived f1 c with
    | mk r2 f2 =>
      rw [hd] at h2 hc2
      cases r2 with
      | ret a =>
        simp only
        split_ifs
        · exact finishShutdown_wellFormed f2 hc2 h2
        · exact h2
      | panic q => exact h2
      | blocked => exact h2
      | spin => exact h2

theorem Shutdown_wellFormed (sch : DrainSched) (f : LDAPClientPooledFactory)
    (h : wellFormed f = true) : wellFormed (Shutdown sch f).2 = true := by
  have h0 : wellFormed { f with closing := true } = true := by
    rw [wellFormed_iff] at h ⊢
    intro ch hch
    exact ⟨(h ch hch).1, fun _ => rfl⟩
  unfold Shutdown
  split_ifs
  · cases sch with
    | beforeWait => exact drainFirst_wellFormed _ rfl h0
    | afterReturnDone => exact finishShutdown_wellFormed _ rfl h0
    | afterReturnRecv =>
      simp only
      have h1 := closeClients_wellFormed { f with closing := true } rfl h0
      cases hcc : closeClients { f with closing := true } with
      | mk r f1 =>
        rw [hcc] at h1
        cases r with
        | ret a =>
          simp only
          cases hr : recvReady f1 with
          | none => exact h1
          | some v =>
            obtain ⟨c, f2⟩ := v
            have h2 := drainReceived_wellFormed f2 c (recvReady_wellFormed f1 f2 c hr h1)
            simp only
            cases hd : drainReceived f2 c with
            | mk r2 f3 =>
              rw [hd] at h2
              cases r2 <;> exact h2
        | panic q => exact h1
        | blocked => exact h1
        | spin => exact h1
  · exact drainFirst_wellFormed _ rfl h0

/-! ## The unrolling budget -/

theorem replaceLoop_more_fuel (fuel : Nat) : ∀ (d : Int) (f : LDAPClientPooledFactory),
    (replaceLoop fuel d f).1 ≠ .spin → replaceLoop (fuel + 1) d f = replaceLoop fuel d f := by
  induction fuel with
  | zero => intro d f h; simp [replaceLoop] at h
  | succ k ih =>
    intro d f h
    rw [replaceLoop] at h ⊢
    rw [replaceLoop.eq_def k.succ]
    split_ifs at h ⊢ with hd
    · simp [hd]
    · simp only [hd, if_false]
      cases hnew : new f with
      | mk r f1 =>
        rw [hnew] at h
        cases r with
        | error e =>
          simp only at h ⊢
          exact ih d _ h
        | ok c => rfl

theorem new_fails_any (f : LDAPClientPooledFactory)
    (hfail : ∀ n, f.calls ≤ n → ∃ e, f.factory n = .error e) (hdial : f.dial = 0) :
    ∃ e f1, new f = (.error e, f1) ∧ f1.sleep = f.sleep ∧ f1.now = f.now
      ∧ f1.factory = f.factory ∧ f.calls ≤ f1.calls ∧ f1.dial = 0 := by
  unfold new
  split_ifs
  · exact ⟨_, _, rfl, rfl, rfl, rfl, le_refl _, hdial⟩
  · obtain ⟨e, he⟩ := hfail f.calls (le_refl _)
    rw [he]
    exact ⟨_, _, rfl, rfl, by simp [hdial], rfl, Nat.le_succ _, hdial⟩

/-- On the clock on which the calls of the inner factory take no time, with `sleep` not
positive and an inner factory that fails at every call, the replacement loop makes no
progress: while the deadline lies ahead it is still running after any number of rounds. -/
theorem replaceLoop_spins (fuel : Nat) : ∀ (d : Int) (f : LDAPClientPooledFactory),
    f.sleep ≤ 0 → f.dial = 0 → (∀ n, f.calls ≤ n → ∃ e, f.factory n = .error e) → f.now < d →
    (replaceLoop fuel d f).1 = .spin := by
  induction fuel with
  | zero => intro d f _ _ _ _; rfl
  | succ k ih =>
    intro d f hs hdial hfail hd
    obtain ⟨e, f1, hnew, h1, h2, h3, h4, h5⟩ := new_fails_any f hfail hdial
    have hnd : ¬ d ≤ f.now := by omega
    have hmax : max f1.sleep 0 = 0 := by rw [h1]; omega
    rw [replaceLoop]
    simp only [hnd, if_false, hnew]
    apply ih
    · simpa [h1] using hs
    · exact h5
    · intro n hn
      have : f.calls ≤ n := le_trans h4 hn
      simpa [h3] using hfail n this
    · simp only [hmax, h2]; omega

/-! ## What Shutdown does, by the counter and the buffer -/

/-- With at least two connections counted and a non-empty buffer, `Shutdown` closes the head
of the buffer, lowers the counter by one, and waits: the rest of the buffer is left unclosed
and the channel open. -/
theorem Shutdown_blocks_after_one (f : LDAPClientPooledFactory) (ch : Chan)
    (c : LDAPClientPooled) (rest : List LDAPClientPooled) (cl : LDAPClient) (n : Nat)
    (sch : DrainSched)
    (hch : f.clients = some ch) (hbuf : ch.buf = c :: rest) (hc : c.Client = some cl)
    (hwg : f.wg = n + 2) :
    Shutdown sch f
      = (.blocked,
         { f with closing := true, clients := some { ch with buf := rest },
                  closeLog := f.closeLog ++ [cl.id], wg := n + 1 }) := by
  simp [Shutdown, hwg, drainFirst, recvReady, hch, hbuf, drainReceived, realClose, hc]

/-- With a connection counted and an empty open buffer, `Shutdown` waits: its goroutine leaves
at the 10 second timeout and nothing else changes. -/
theorem Shutdown_blocks_on_empty (f : LDAPClientPooledFactory) (ch : Chan) (n : Nat)
    (sch : DrainSched)
    (hch : f.clients = some ch) (hbuf : ch.buf = []) (hnc : ch.closed = false)
    (hwg : f.wg = n + 1) :
    Shutdown sch f
      = (.blocked, { f with closing := true, now := f.now + Second * 10 }) := by
  simp [Shutdown, hwg, drainFirst, recvReady, hch, hbuf, hnc]

/-- With exactly one connection counted and that connection in the buffer of an open channel,
`Shutdown` closes it, closes the channel and returns nil. -/
theorem Shutdown_returns_single (f : LDAPClientPooledFactory) (ch : Chan)
    (c : LDAPClientPooled) (cl : LDAPClient) (sch : DrainSched)
    (hch : f.clients = some ch) (hbuf : ch.buf = [c]) (hnc : ch.closed = false)
    (hc : c.Client = some cl) (hwg : f.wg = 1) :
    Shutdown sch f
      = (.ret none,
         { f with closing := true, clients := some { ch with buf := [], closed := true },
                  closeLog := f.closeLog ++ [cl.id], wg := 0 }) := by
  simp [Shutdown, hwg, drainFirst, recvReady, hch, hbuf, drainReceived, realClose, hc,
    finishShutdown, closeClients, hnc]

/-! ## The scenarios of the specification -/

/-- Count 2, retries 2, both connections checked out: a third `acquire` waits on the empty
buffer; when one connection is handed back 3 s later it returns that connection, within the
deadline and without a call to the inner factory. -/
theorem scenario_third_caller_waits :
    ((pairPool.acquire 1 quiet none).2.acquire 1 quiet none).2.clients
        = some { cap := 2, buf := [], closed := false }
      ∧ (acquire 1 { arrival := some (3000000000, liveConn 0), pickDone := false } none
          ((pairPool.acquire 1 quiet none).2.acquire 1 quiet none).2).1
        = .ret (.ok (liveConn 0))
      ∧ (acquire 1 { arrival := some (3000000000, liveConn 0), pickDone := false } none
          ((pairPool.acquire 1 quiet none).2.acquire 1 quiet none).2).2.now = 3 * Second
      ∧ (acquire 1 { arrival := some (3000000000, liveConn 0), pickDone := false } none
          ((pairPool.acquire 1 quiet none).2.acquire 1 quiet none).2).2.calls
        = ((pairPool.acquire 1 quiet none).2.acquire 1 quiet none).2.calls := by
  refine ⟨by decide, rfl, by decide, by decide⟩

/-- Count 1, timeout 5 s (sleep 2.5 s), the single buffered connection dead, the inner factory
failing once and then succeeding: `acquire` returns the new connection after one sleep, within
the deadline. -/
theorem scenario_dead_connection_replaced :
    revivablePool.clients = some { cap := 1, buf := [deadConn 0], closed := false }
      ∧ revivablePool.timeout = 5 * Second ∧ revivablePool.sleep = 2500000000
      ∧ (acquire 2 quiet none revivablePool).1
        = .ret (.ok { ptr := 1, Client := some { id := 2, isClosing := false, closeErr := none } })
      ∧ (acquire 2 quiet none revivablePool).2.now = revivablePool.now + 2500000000
      ∧ (acquire 2 quiet none revivablePool).2.calls = revivablePool.calls + 2 := by
  refine ⟨by decide, by decide, by decide, rfl, by decide, by decide⟩

/-! ## The wait-group counter covers the tracked connections -/

theorem new_wg (f : LDAPClientPooledFactory) :
    (∀ c, (new f).1 = .ok c → (new f).2.wg = f.wg + 1)
      ∧ (∀ e, (new f).1 = .error e → (new f).2.wg = f.wg) := by
  unfold new
  split_ifs
  · exact ⟨fun c h => (by cases h), fun e _ => rfl⟩
  · split
    · exact ⟨fun c h => (by cases h), fun e _ => rfl⟩
    · exact ⟨fun c _ => rfl, fun e h => (by cases h)⟩

theorem replaceLoop_wg (fuel : Nat) : ∀ (d : Int) (f : LDAPClientPooledFactory),
    (∀ c, (replaceLoop fuel d f).1 = .ret (.ok c) → (replaceLoop fuel d f).2.wg = f.wg + 1)
      ∧ f.wg ≤ (replaceLoop fuel d f).2.wg := by
  induction fuel with
  | zero => intro d f; exact ⟨fun c h => (by simp [replaceLoop] at h), by simp [replaceLoop]⟩
  | succ k ih =>
    intro d f
    rw [replaceLoop]
    split_ifs
    · exact ⟨fun c h => (by simp at h), le_refl _⟩
    · have hn := new_wg f
      cases hnew : new f with
      | mk r f1 =>
        rw [hnew] at hn
        cases r with
        | error e =>
          simp only
          have h1 : f1.wg = f.wg := hn.2 e rfl
          obtain ⟨h2, h3⟩ := ih d { f1 with now := f1.now + max f1.sleep 0 }
          refine ⟨fun c hc => ?_, ?_⟩
          · have := h2 c hc
            simp only at this
            omega
          · simp only at h3
            omega
        | ok c =>
          have h1 : f1.wg = f.wg + 1 := hn.1 c rfl
          exact ⟨fun _ _ => h1, by simp only; omega⟩

theorem afterReceive_wg (fuel : Nat) (d : Int) (f : LDAPClientPooledFactory)
    (c : Option LDAPClientPooled) :
    (∀ c1, (afterReceive fuel d f c).1 = .ret (.ok c1) → (afterReceive fuel d f c).2.wg = f.wg)
      ∧ f.wg ≤ (afterReceive fuel d f c).2.wg + 1 := by
  unfold afterReceive
  cases c with
  | none => exact ⟨fun _ _ => rfl, Nat.le_succ _⟩
  | some c =>
    cases hc : c.Client with
    | none => simp [hc]
    | some cl =>
      simp only [hc]
      split_ifs
      · cases hw : f.wg with
        | zero => simp
        | succ n =>
          obtain ⟨h1, h2⟩ := replaceLoop_wg fuel d { f with wg := n }
          exact ⟨h1, Nat.succ_le_succ h2⟩
      · exact ⟨fun _ _ => rfl, Nat.le_succ _⟩

theorem acquire_counter (fuel : Nat) (pick : Bool) (f : LDAPClientPooledFactory) (ch : Chan)
    (hch : f.clients = some ch) (hcap : (ch.cap : Int) = f.count) :
    ∃ ch1, (acquire fuel { arrival := none, pickDone := pick } none f).2.clients = some ch1
      ∧ (∀ c, (acquire fuel { arrival := none, pickDone := pick } none f).1 = .ret (.ok c) →
          ch1.buf.length + 1 + f.wg
            ≤ ch.buf.length + (acquire fuel { arrival := none, pickDone := pick } none f).2.wg)
      ∧ ch1.buf.length + f.wg
          ≤ ch.buf.length + (acquire fuel { arrival := none, pickDone := pick } none f).2.wg := by
  by_cases hcl : f.closing = true
  · refine ⟨ch, ?_, ?_, ?_⟩ <;> simp [acquire, hcl, hch]
  · have hinit : (capClients f : Int) = f.count := by simp [capClients, hch, hcap]
    have hacq : acquire fuel { arrival := none, pickDone := pick } none f
        = selectClients fuel { arrival := none, pickDone := pick } (f.now + f.timeout) f := by
      simp [acquire, hcl, hinit]
    rw [hacq]
    unfold selectClients
    simp only [hch]
    cases hb : ch.buf with
    | nil =>
      simp only
      split_ifs
      · exact ⟨ch, hch, by simp, by simp [hb]⟩
      · exact ⟨ch, by simp [afterReceive, hch], by simp [afterReceive], by simp [afterReceive, hb]⟩
      · exact ⟨ch, hch, by simp, by simp [hb]⟩
      · exact ⟨ch, rfl, by simp, by simp [hb]⟩
    | cons c rest =>
      simp only
      split_ifs
      · exact ⟨ch, hch, by simp, by simp [hb]⟩
      · obtain ⟨h1, _, _⟩ := afterReceive_frame fuel (f.now + f.timeout)
          { f with clients := some { ch with buf := rest } } (some c)
        obtain ⟨h2, h3⟩ := afterReceive_wg fuel (f.now + f.timeout)
          { f with clients := some { ch with buf := rest } } (some c)
        refine ⟨{ ch with buf := rest }, h1, ?_, ?_⟩
        · intro c1 hc1
          have := h2 c1 hc1
          simp only [List.length_cons] at this ⊢
          omega
        · simp only [List.length_cons] at h3 ⊢
          omega

theorem relinquish_wg (f : LDAPClientPooledFactory) (c : LDAPClientPooled) :
    (relinquish f c).2.wg = f.wg := by
  have hr := realClose_frame f c
  have hs := send_frame f c
  unfold relinquish
  split_ifs
  · exact hr.2.2.2.1
  · exact hr.2.2.2.1
  · cases hsend : send f c with
    | mk r f1 =>
      rw [hsend] at hs
      cases r <;> exact hs.2.2.2.2.2.2.2.1

theorem step_counter (w : World) (op : Op) (ch : Chan)
    (hch : w.pool.clients = some ch) (hcap : (ch.cap : Int) = w.pool.count)
    (hsum : ch.buf.length + w.out.length ≤ w.pool.wg)
    (hop : ∀ c, op = .relinquish c → c.ptr ∈ w.out) :
    ∃ ch1, (step w op).pool.clients = some ch1
      ∧ ch1.buf.length + (step w op).out.length ≤ (step w op).pool.wg := by
  cases op with
  | acquire fuel pick =>
    obtain ⟨ch1, h1, h2, h3⟩ := acquire_counter fuel pick w.pool ch hch hcap
    cases hres : acquire fuel { arrival := none, pickDone := pick } none w.pool with
    | mk r p =>
      rw [hres] at h1 h2 h3
      simp only at h1 h2 h3
      cases r with
      | ret a =>
        cases a with
        | ok c =>
          have h6 := h2 c rfl
          refine ⟨ch1, by simpa [step, hres] using h1, ?_⟩
          simp only [step, hres, List.length_cons]; omega
        | error e =>
          refine ⟨ch1, by simpa [step, hres] using h1, ?_⟩
          simp only [step, hres]; omega
      | panic q =>
        refine ⟨ch1, by simpa [step, hres] using h1, ?_⟩
        simp only [step, hres]; omega
      | blocked =>
        refine ⟨ch1, by simpa [step, hres] using h1, ?_⟩
        simp only [step, hres]; omega
      | spin =>
        refine ⟨ch1, by simpa [step, hres] using h1, ?_⟩
        simp only [step, hres]; omega
  | relinquish c =>
    obtain ⟨ch1, h1, _, _, _, h5⟩ := relinquish_buffer w.pool c ch hch
    have hmem : c.ptr ∈ w.out := hop c rfl
    have hlen : (w.out.erase c.ptr).length = w.out.length - 1 := List.length_erase_of_mem hmem
    have hpos : 0 < w.out.length := List.length_pos_of_mem hmem
    refine ⟨ch1, h1, ?_⟩
    show ch1.buf.length + (w.out.erase c.ptr).length ≤ (relinquish w.pool c).2.wg
    rw [hlen, relinquish_wg]
    omega

theorem run_counter (ops : List Op) : ∀ (w : World) (ch : Chan),
    w.pool.clients = some ch → (ch.cap : Int) = w.pool.count →
    ch.buf.length + w.out.length ≤ ch.cap →
    ch.buf.length + w.out.length ≤ w.pool.wg → checkedOutOnly w ops = true →
    lenClients (run w ops).pool + (run w ops).out.length ≤ (run w ops).pool.wg := by
  induction ops with
  | nil =>
    intro w ch hch _ _ hsum _
    simpa [run, lenClients, hch] using hsum
  | cons op ops ih =>
    intro w ch hch hcap hle hsum hok
    have hop : ∀ c, op = .relinquish c → c.ptr ∈ w.out := by
      intro c hc
      subst hc
      simp only [checkedOutOnly, Bool.and_eq_true, decide_eq_true_eq] at hok
      exact hok.1
    have hrest : checkedOutOnly (step w op) ops = true := by
      cases op with
      | acquire fuel pick => simpa [checkedOutOnly] using hok
      | relinquish c =>
        simp only [checkedOutOnly, Bool.and_eq_true, decide_eq_true_eq] at hok
        exact hok.2
    obtain ⟨ch1, h1, h2, _, h4⟩ := step_inv w op ch hch hcap hle hop
    obtain ⟨ch2, h5, h6⟩ := step_counter w op ch hch hcap hsum hop
    have : ch2 = ch1 := by rw [h1] at h5; exact (Option.some.inj h5).symm
    subst this
    exact ih (step w op) ch2 h1 h2 h4 h6 hrest

/-- On a pool built by the constructor and initialised, as long as each `relinquish` is given
a checked-out connection, the wait-group counter is at least the number of connections in the
buffer plus the number checked out: `wg.Done()` in `acquire` never drives it below zero, and
it is positive whenever a connection is buffered or checked out. -/
theorem counter_covers_tracked (env : Env)
    (count retries timeout : Int) (ops : List Op)
    (h : checkedOutOnly (initialised env count retries timeout) ops = true) :
    lenClients (run (initialised env count retries timeout) ops).pool
        + (run (initialised env count retries timeout) ops).out.length
      ≤ (run (initialised env count retries timeout) ops).pool.wg := by
  have hc : (NewLDAPConnectionFactoryPooled env count retries timeout).count
      = (if 1 ≤ count then count else 5) := by
    simp only [NewLDAPConnectionFactoryPooled]
    split_ifs <;> first | rfl | omega
  have hc1 : 1 ≤ (NewLDAPConnectionFactoryPooled env count retries timeout).count := by
    rw [hc]; split_ifs <;> omega
  by_cases hlim : (NewLDAPConnectionFactoryPooled env count retries timeout).count
      ≤ (NewLDAPConnectionFactoryPooled env count retries timeout).chanLimit
  · obtain ⟨buf, h1, h2, h3, h4⟩ :=
      Initialize_buffer (NewLDAPConnectionFactoryPooled env count retries timeout) hc1 hlim
    have h5 : (initialised env count retries timeout).pool.count
        = (NewLDAPConnectionFactoryPooled env count retries timeout).count := h3
    have h6 : (initialised env count retries timeout).pool.wg = 0 + buf.length := h4
    apply run_counter ops (initialised env count retries timeout)
      { cap := (NewLDAPConnectionFactoryPooled env count retries timeout).count.toNat,
        buf := buf, closed := false } h1
    · rw [h5]; simp only; omega
    · show buf.length + 0 ≤ _
      simp only; omega
    · rw [h6]
      show buf.length + 0 ≤ 0 + buf.length
      omega
    · exact h
  · have hpanic := Initialize_panics
      (NewLDAPConnectionFactoryPooled env count retries timeout) (by omega)
    have hpool : (initialised env count retries timeout).pool
        = NewLDAPConnectionFactoryPooled env count retries timeout := by
      show (Initialize _).2 = _
      rw [hpanic]
    obtain ⟨h1, h2⟩ := run_uninitialised ops (initialised env count retries timeout)
      (by rw [hpool]; rfl) (by rw [hpool]; omega) rfl h
    rw [h1, h2, hpool]
    exact Nat.zero_le _

/-! ## The method Close of the wrapper -/

/-- The method `Close` of a wrapper is `relinquish` on its pool. Its docstring says that it
makes the connection available in the pool again, and that of the type that the wrapper
prevents the client from being closed; on a pool that is closing or whose buffer is full the
code closes the underlying connection instead. On the full pool of count 2, `Close` on a
wrapper around connection 7 really closes connection 7 and leaves the buffer as it was. -/
theorem Close_on_full_pool (c : LDAPClientPooled) (pool : LDAPClientPooledFactory) :
    c.Close pool = relinquish pool c
      ∧ pairPool.closing = false ∧ capClients pairPool = lenClients pairPool
      ∧ ((liveConn 7).Close pairPool).1 = .ret none
      ∧ ((liveConn 7).Close pairPool).2.closeLog = [7]
      ∧ ((liveConn 7).Close pairPool).2.clients = pairPool.clients :=
  ⟨rfl, by decide, by decide, by decide, by decide, by decide⟩

end LDAPClientPooledFactory

end LDAPPool
